import Mathlib

/-!
Verification model of the CMIT protocol implementation (package `cmit`):
message codec (`cmit/messages.py`, `cmit/utils.py`), client connection and
response parser (`cmit/client.py`), server request handler (`cmit/server.py`),
and the adapter/session layer (`cmit/requests/`).

Python strings are modelled as lists of code points (`PyStr`), byte strings as
lists of byte values (`PyBytes`).  Timestamps are modelled at second precision
as integers (the spec compares timestamps at second precision).  The standard
library collaborators (`json`, `base64`, `latin-1`/`utf-8` codecs) are
modelled executably on the JSON fragment the package exchanges (strings,
integers, objects).  Python exceptions are modelled by the `PyExc` type, with
`PyExc.isValueError` reflecting Python's exception hierarchy (binascii.Error,
UnicodeDecodeError, UnicodeEncodeError and json.JSONDecodeError are all
subclasses of ValueError; KeyError and TypeError are not).
-/

/-- Python `str` values, as lists of unicode code points. -/
abbrev PyStr := List Nat

/-- Python `bytes` values, as lists of byte values. -/
abbrev PyBytes := List Nat

/-- Model of the Python exceptions raised by the `cmit` package and by the
standard-library functions it calls. -/
inductive PyExc where
  | valueError
  | binasciiError
  | unicodeDecodeError
  | unicodeEncodeError
  | jsonDecodeError
  | keyError
  | typeError
  | nameError
  | attributeError
  | lineTooLong
  | remoteDisconnected
  | badStatusLine
  | unknownProtocol
  | cannotSendRequest
  | responseNotReady
  | improperConnectionState
  | invalidSocketPath
  | missingSchema
deriving DecidableEq, Repr

/-- Python's exception hierarchy: which modelled exceptions are instances of
`ValueError`.  `binascii.Error`, `UnicodeDecodeError`, `UnicodeEncodeError`
and `json.JSONDecodeError` all subclass `ValueError`. -/
def PyExc.isValueError : PyExc → Bool
  | .valueError => true
  | .binasciiError => true
  | .unicodeDecodeError => true
  | .unicodeEncodeError => true
  | .jsonDecodeError => true
  | _ => false

/-- Which modelled exceptions are instances of `cmit.client.ImproperConnectionState`
(the client state-machine error, the spec's "StateError"). -/
def PyExc.isStateError : PyExc → Bool
  | .cannotSendRequest => true
  | .responseNotReady => true
  | .improperConnectionState => true
  | _ => false

/-- Convert a Lean string literal to the `PyStr` model. -/
def pstr (s : String) : PyStr := s.data.map Char.toNat

/-- Python whitespace (ASCII fragment): space, tab, LF, VT, FF, CR. -/
def isPySpace (c : Nat) : Bool := c = 32 || (9 ≤ c && c ≤ 13)

/-- Model of Python `str.strip()` (ASCII whitespace fragment). -/
def pyStrip (s : PyStr) : PyStr :=
  ((((s.dropWhile (isPySpace ·)).reverse).dropWhile (isPySpace ·)).reverse)

/-- ASCII decimal digit test (model of `str.isdigit` restricted to ASCII). -/
def isAsciiDigit (c : Nat) : Bool := 48 ≤ c && c ≤ 57

/-- Model of `str.upper()` on the ASCII fragment. -/
def pyUpper (s : PyStr) : PyStr :=
  s.map (fun c => if 97 ≤ c && c ≤ 122 then c - 32 else c)

/-- Model of `str.lower()` on the ASCII fragment. -/
def pyLower (s : PyStr) : PyStr :=
  s.map (fun c => if 65 ≤ c && c ≤ 90 then c + 32 else c)

/-- Model of `cmit.utils.encode` (and the `str.encode('latin-1')` it wraps):
Latin-1 encodes each code point below 256 to the identical byte and raises
`UnicodeEncodeError` on any higher code point. -/
def latin1Encode (s : PyStr) : Except PyExc PyBytes :=
  if s.all (· < 256) then .ok s else .error .unicodeEncodeError

/-- Model of Python `str(b, 'latin-1')` / `bytes.decode('latin-1')`: total,
each byte maps to the identical code point. -/
def latin1Decode (b : PyBytes) : PyStr := b

/-- Decode one UTF-8 sequence starting with lead byte `b`, returning the
scalar value and the remaining bytes.  Rejects lone continuation bytes,
truncated sequences, overlong encodings, surrogates and code points above
0x10FFFF (Python's strict UTF-8 decoder). -/
def utf8DecodeOne (b : Nat) (rest : PyBytes) : Option (Nat × PyBytes) :=
  if b < 0x80 then some (b, rest)
  else if b < 0xC2 then none
  else if b < 0xE0 then
    match rest with
    | b2 :: rest2 =>
      if 0x80 ≤ b2 ∧ b2 < 0xC0 then
        some ((b - 0xC0) * 64 + (b2 - 0x80), rest2)
      else none
    | _ => none
  else if b < 0xF0 then
    match rest with
    | b2 :: b3 :: rest3 =>
      if (0x80 ≤ b2 ∧ b2 < 0xC0) ∧ (0x80 ≤ b3 ∧ b3 < 0xC0) ∧
         (b = 0xE0 → 0xA0 ≤ b2) ∧ (b = 0xED → b2 < 0xA0) then
        some ((b - 0xE0) * 4096 + (b2 - 0x80) * 64 + (b3 - 0x80), rest3)
      else none
    | _ => none
  else if b < 0xF5 then
    match rest with
    | b2 :: b3 :: b4 :: rest4 =>
      if (0x80 ≤ b2 ∧ b2 < 0xC0) ∧ (0x80 ≤ b3 ∧ b3 < 0xC0) ∧
         (0x80 ≤ b4 ∧ b4 < 0xC0) ∧
         (b = 0xF0 → 0x90 ≤ b2) ∧ (b = 0xF4 → b2 < 0x90) then
        some ((b - 0xF0) * 262144 + (b2 - 0x80) * 4096 + (b3 - 0x80) * 64 +
              (b4 - 0x80), rest4)
      else none
    | _ => none
  else none

/-- Fuel-driven UTF-8 decoding loop (each step consumes at least one byte,
so fuel equal to the input length suffices). -/
def utf8DecodeF : Nat → PyBytes → Option PyStr
  | _, [] => some []
  | 0, _ :: _ => none
  | f + 1, b :: rest =>
    match utf8DecodeOne b rest with
    | some (v, rest2) => (utf8DecodeF f rest2).map (v :: ·)
    | none => none

/-- Model of Python `bytes.decode()` (strict UTF-8). -/
def utf8Decode (bs : PyBytes) : Option PyStr := utf8DecodeF bs.length bs

theorem utf8DecodeF_ascii : ∀ (f : Nat) (bs : PyBytes), bs.length ≤ f →
    (∀ b ∈ bs, b < 0x80) → utf8DecodeF f bs = some bs := by
  intro f
  induction f with
  | zero =>
    intro bs hlen _
    match bs with
    | [] => rfl
  | succ f ih =>
    intro bs hlen h
    match bs with
    | [] => rfl
    | b :: rest =>
      have hb : b < 0x80 := h b (by simp)
      have hone : utf8DecodeOne b rest = some (b, rest) := by
        unfold utf8DecodeOne
        rw [if_pos hb]
      have hlen' : rest.length ≤ f := by simp at hlen; omega
      have ih' := ih rest hlen' (fun x hx => h x (by simp [hx]))
      rw [utf8DecodeF, hone]
      simp [ih']

theorem utf8Decode_ascii (bs : PyBytes) (h : ∀ b ∈ bs, b < 0x80) :
    utf8Decode bs = some bs :=
  utf8DecodeF_ascii bs.length bs (le_refl _) h

/-- Base64 alphabet: sextet value to ASCII character. -/
def b64Char (n : Nat) : Nat :=
  if n < 26 then 65 + n
  else if n < 52 then 97 + (n - 26)
  else if n < 62 then 48 + (n - 52)
  else if n = 62 then 43
  else 47

/-- Base64 alphabet: ASCII character back to sextet value. -/
def b64Val (c : Nat) : Option Nat :=
  if 65 ≤ c ∧ c ≤ 90 then some (c - 65)
  else if 97 ≤ c ∧ c ≤ 122 then some (26 + (c - 97))
  else if 48 ≤ c ∧ c ≤ 57 then some (52 + (c - 48))
  else if c = 43 then some 62
  else if c = 47 then some 63
  else none

def isB64Char (c : Nat) : Bool := (b64Val c).isSome

/-- Model of `base64.b64encode`: groups of three bytes become four alphabet
characters, with `=` (61) padding for a short final group. -/
def b64encode : PyBytes → PyBytes
  | [] => []
  | [a] => [b64Char (a / 4), b64Char (a % 4 * 16), 61, 61]
  | [a, b] => [b64Char (a / 4), b64Char (a % 4 * 16 + b / 16),
               b64Char (b % 16 * 4), 61]
  | a :: b :: c :: rest =>
      b64Char (a / 4) :: b64Char (a % 4 * 16 + b / 16) ::
      b64Char (b % 16 * 4 + c / 64) :: b64Char (c % 64) :: b64encode rest

/-- Decode groups of four base64 characters (after junk characters have been
discarded); raises `binascii.Error` on a leftover group or misplaced
padding. -/
def b64decodeGroups : PyBytes → Except PyExc PyBytes
  | [] => .ok []
  | a :: b :: c :: d :: rest =>
    match b64Val a, b64Val b with
    | some va, some vb =>
      if c = 61 then
        if d = 61 ∧ rest = [] then .ok [va * 4 + vb / 16]
        else .error .binasciiError
      else
        match b64Val c with
        | some vc =>
          if d = 61 then
            if rest = [] then .ok [va * 4 + vb / 16, vb % 16 * 16 + vc / 4]
            else .error .binasciiError
          else
            match b64Val d with
            | some vd =>
              (b64decodeGroups rest).map
                (fun bs => (va * 4 + vb / 16) :: (vb % 16 * 16 + vc / 4) ::
                           (vc % 4 * 64 + vd) :: bs)
            | none => .error .binasciiError
        | none => .error .binasciiError
    | _, _ => .error .binasciiError
  | _ => .error .binasciiError

/-- Model of `base64.b64decode` (default non-validating mode): characters
outside the alphabet (including CR/LF) are discarded, then the remainder is
decoded in groups of four; an incomplete group raises `binascii.Error`
(a subclass of `ValueError`). -/
def b64decode (s : PyBytes) : Except PyExc PyBytes :=
  b64decodeGroups (s.filter (fun c => isB64Char c || c = 61))

theorem b64Val_b64Char : ∀ n < 64, b64Val (b64Char n) = some n := by decide

theorem b64Char_lt (n : Nat) (h : n < 64) : b64Char n < 0x80 := by
  revert n h; decide

theorem b64Char_isB64 : ∀ n < 64, isB64Char (b64Char n) = true := by decide

theorem b64Char_ne_61 : ∀ n < 64, b64Char n ≠ 61 := by decide

theorem b64encode_chars : ∀ bs : PyBytes, (∀ b ∈ bs, b < 256) →
    ∀ c ∈ b64encode bs, isB64Char c || c = 61 := by
  intro bs
  induction bs using b64encode.induct with
  | case1 => intro _ c hc; simp [b64encode] at hc
  | case2 a =>
    intro h c hc
    have ha : a < 256 := h a (by simp)
    simp only [b64encode, List.mem_cons, List.not_mem_nil, or_false] at hc
    rcases hc with rfl | rfl | rfl | rfl
    · simp [b64Char_isB64 _ (by omega : a / 4 < 64)]
    · simp [b64Char_isB64 _ (by omega : a % 4 * 16 < 64)]
    · simp
    · simp
  | case3 a b =>
    intro h c hc
    have ha : a < 256 := h a (by simp)
    have hb : b < 256 := h b (by simp)
    simp only [b64encode, List.mem_cons, List.not_mem_nil, or_false] at hc
    rcases hc with rfl | rfl | rfl | rfl
    · simp [b64Char_isB64 _ (by omega : a / 4 < 64)]
    · simp [b64Char_isB64 _ (by omega : a % 4 * 16 + b / 16 < 64)]
    · simp [b64Char_isB64 _ (by omega : b % 16 * 4 < 64)]
    · simp
  | case4 a b c rest ih =>
    intro h x hx
    have ha : a < 256 := h a (by simp)
    have hb : b < 256 := h b (by simp)
    have hc : c < 256 := h c (by simp)
    simp only [b64encode, List.mem_cons] at hx
    rcases hx with rfl | rfl | rfl | rfl | hx
    · simp [b64Char_isB64 _ (by omega : a / 4 < 64)]
    · simp [b64Char_isB64 _ (by omega : a % 4 * 16 + b / 16 < 64)]
    · simp [b64Char_isB64 _ (by omega : b % 16 * 4 + c / 64 < 64)]
    · simp [b64Char_isB64 _ (by omega : c % 64 < 64)]
    · exact ih (fun y hy => h y (by simp [hy])) x hx

theorem b64decodeGroups_b64encode : ∀ bs : PyBytes, (∀ b ∈ bs, b < 256) →
    b64decodeGroups (b64encode bs) = .ok bs := by
  intro bs
  induction bs using b64encode.induct with
  | case1 => intro _; rfl
  | case2 a =>
    intro h
    have ha : a < 256 := h a (by simp)
    have h1 := b64Val_b64Char (a / 4) (by omega)
    have h2 := b64Val_b64Char (a % 4 * 16) (by omega)
    simp only [b64encode, b64decodeGroups, h1, h2]
    norm_num
    omega
  | case3 a b =>
    intro h
    have ha : a < 256 := h a (by simp)
    have hb : b < 256 := h b (by simp)
    have h1 := b64Val_b64Char (a / 4) (by omega)
    have h2 := b64Val_b64Char (a % 4 * 16 + b / 16) (by omega)
    have h3 := b64Val_b64Char (b % 16 * 4) (by omega)
    have h3ne := b64Char_ne_61 (b % 16 * 4) (by omega)
    simp only [b64encode, b64decodeGroups, h1, h2, h3, if_neg h3ne]
    norm_num
    constructor <;> omega
  | case4 a b c rest ih =>
    intro h
    have ha : a < 256 := h a (by simp)
    have hb : b < 256 := h b (by simp)
    have hc : c < 256 := h c (by simp)
    have h1 := b64Val_b64Char (a / 4) (by omega)
    have h2 := b64Val_b64Char (a % 4 * 16 + b / 16) (by omega)
    have h3 := b64Val_b64Char (b % 16 * 4 + c / 64) (by omega)
    have h4 := b64Val_b64Char (c % 64) (by omega)
    have h3ne := b64Char_ne_61 (b % 16 * 4 + c / 64) (by omega)
    have h4ne := b64Char_ne_61 (c % 64) (by omega)
    have ihr := ih (fun y hy => h y (by simp [hy]))
    simp only [b64encode, b64decodeGroups, h1, h2, h3, h4, if_neg h3ne,
               if_neg h4ne, ihr, Except.map]
    have e1 : a / 4 * 4 + (a % 4 * 16 + b / 16) / 16 = a := by omega
    have e2 : (a % 4 * 16 + b / 16) % 16 * 16 + (b % 16 * 4 + c / 64) / 4 = b := by
      omega
    have e3 : (b % 16 * 4 + c / 64) % 4 * 64 + c % 64 = c := by omega
    rw [e1, e2, e3]

/-- Round trip of the base64 transport: decoding an encoded byte string
yields the original bytes. -/
theorem b64decode_b64encode (bs : PyBytes) (h : ∀ b ∈ bs, b < 256) :
    b64decode (b64encode bs) = .ok bs := by
  unfold b64decode
  rw [List.filter_eq_self.mpr, b64decodeGroups_b64encode bs h]
  intro c hc
  exact b64encode_chars bs h c hc

/-! ## JSON model

The `json` standard-library collaborator, modelled executably on the fragment
the package exchanges: strings, integers and objects.  `dumpsVal` mirrors
`json.dumps` with its defaults (`ensure_ascii=True`, separators `", "` and
`": "`, no indent): output is pure ASCII, with non-ASCII code points escaped
as `\uXXXX` (a surrogate pair for astral code points).  `loads` mirrors
`json.loads` (strict mode: unescaped control characters in strings are
rejected, trailing data is rejected). -/

mutual
inductive JValue where
  | num (n : Int)
  | str (s : PyStr)
  | obj (fields : JMembers)
deriving DecidableEq, Repr
inductive JMembers where
  | nil
  | cons (k : PyStr) (v : JValue) (tl : JMembers)
deriving DecidableEq, Repr
end

/-- Lowercase hex digit character of a value below 16. -/
def hexDigitChar (d : Nat) : Nat := if d < 10 then 48 + d else 87 + d

/-- Four-digit lowercase hex rendering (for `\uXXXX` escapes). -/
def hex4 (n : Nat) : PyStr :=
  [hexDigitChar (n / 4096 % 16), hexDigitChar (n / 256 % 16),
   hexDigitChar (n / 16 % 16), hexDigitChar (n % 16)]

/-- JSON string escaping of one code point, as `json.dumps` with
`ensure_ascii=True` performs it: shorthand escapes for `"` `\` `\b` `\t`
`\n` `\f` `\r`, `\uXXXX` for other control and all non-ASCII code points,
surrogate pairs for code points above 0xFFFF. -/
def escapeChar (c : Nat) : PyStr :=
  if c = 34 then [92, 34]
  else if c = 92 then [92, 92]
  else if c = 8 then [92, 98]
  else if c = 9 then [92, 116]
  else if c = 10 then [92, 110]
  else if c = 12 then [92, 102]
  else if c = 13 then [92, 114]
  else if c < 32 then 92 :: 117 :: hex4 c
  else if c < 127 then [c]
  else if c < 65536 then 92 :: 117 :: hex4 c
  else 92 :: 117 :: hex4 (0xD800 + (c - 65536) / 1024) ++
       (92 :: 117 :: hex4 (0xDC00 + (c - 65536) % 1024))

def escapeStr (s : PyStr) : PyStr := s.flatMap escapeChar

/-- Serialized JSON string: quote, escaped body, quote. -/
def dumpsStr (s : PyStr) : PyStr := 34 :: escapeStr s ++ [34]

/-- Decimal digits of a natural number (fuel-driven so that it reduces in
the kernel; fuel `n + 1` always suffices). -/
def natDigitsF : Nat → Nat → PyStr
  | 0, _ => []
  | f + 1, n => if n < 10 then [48 + n] else natDigitsF f (n / 10) ++ [48 + n % 10]

def natDigits (n : Nat) : PyStr := natDigitsF (n + 1) n

/-- Serialization of a Python `int` (JSON number). -/
def dumpsInt (n : Int) : PyStr :=
  if n < 0 then 45 :: natDigits n.natAbs else natDigits n.toNat

mutual
/-- Model of `json.dumps` on the modelled fragment. -/
def dumpsVal : JValue → PyStr
  | .num n => dumpsInt n
  | .str s => dumpsStr s
  | .obj .nil => [123, 125]
  | .obj (.cons k v tl) =>
      123 :: (dumpsStr k ++ 58 :: 32 :: dumpsVal v ++ dumpsMembersRest tl) ++ [125]
/-- Remaining members after the first, each preceded by `", "`. -/
def dumpsMembersRest : JMembers → PyStr
  | .nil => []
  | .cons k v tl =>
      44 :: 32 :: (dumpsStr k ++ 58 :: 32 :: dumpsVal v) ++ dumpsMembersRest tl
end

/-- Valid unicode scalar code point (what a well-formed Python `str` built
from text holds: below 0x110000 and not a lone surrogate). -/
def wfScalar (c : Nat) : Bool := c < 1114112 && !(55296 ≤ c && c < 57344)

def wfStr (s : PyStr) : Bool := s.all wfScalar

mutual
/-- Well-formed JSON value: every string consists of valid scalars. -/
def wfVal : JValue → Bool
  | .num _ => true
  | .str s => wfStr s
  | .obj fs => wfMembers fs
def wfMembers : JMembers → Bool
  | .nil => true
  | .cons k v tl => wfStr k && wfVal v && wfMembers tl
end

mutual
/-- Parser-fuel measure of a JSON value. -/
def jsize : JValue → Nat
  | .num _ => 1
  | .str _ => 1
  | .obj fs => 1 + msize fs
def msize : JMembers → Nat
  | .nil => 1
  | .cons _ v tl => 1 + jsize v + msize tl
end

/-- JSON whitespace accepted between tokens by `json.loads`. -/
def isJsonWs (c : Nat) : Bool := c = 32 || c = 9 || c = 10 || c = 13

def skipWs (s : PyStr) : PyStr := s.dropWhile (isJsonWs ·)

/-- Hex digit value of a character. -/
def hexVal (c : Nat) : Option Nat :=
  if 48 ≤ c ∧ c ≤ 57 then some (c - 48)
  else if 97 ≤ c ∧ c ≤ 102 then some (c - 87)
  else if 65 ≤ c ∧ c ≤ 70 then some (c - 55)
  else none

/-- Parse exactly four hex digits. -/
def parseHex4 : PyStr → Option (Nat × PyStr)
  | h1 :: h2 :: h3 :: h4 :: r =>
    match hexVal h1, hexVal h2, hexVal h3, hexVal h4 with
    | some a, some b, some c, some d => some (((a * 16 + b) * 16 + c) * 16 + d, r)
    | _, _, _, _ => none
  | _ => none

/-- Parse a `\uXXXX` escape body (after `\u`), combining surrogate pairs. -/
def parseUEscape (r : PyStr) : Option (Nat × PyStr) :=
  match parseHex4 r with
  | some (n, r2) =>
    if 55296 ≤ n ∧ n < 56320 then
      match r2 with
      | a :: b :: r3 =>
        if a = 92 ∧ b = 117 then
          match parseHex4 r3 with
          | some (m, r4) =>
            if 56320 ≤ m ∧ m < 57344 then
              some (65536 + (n - 55296) * 1024 + (m - 56320), r4)
            else none
          | none => none
        else none
      | _ => none
    else if 56320 ≤ n ∧ n < 57344 then none
    else some (n, r2)
  | none => none

/-- Parse one escape sequence (after the backslash). -/
def parseEscape : PyStr → Option (Nat × PyStr)
  | [] => none
  | e :: r =>
    if e = 34 then some (34, r)
    else if e = 92 then some (92, r)
    else if e = 47 then some (47, r)
    else if e = 98 then some (8, r)
    else if e = 102 then some (12, r)
    else if e = 110 then some (10, r)
    else if e = 114 then some (13, r)
    else if e = 116 then some (9, r)
    else if e = 117 then parseUEscape r
    else none

/-- Parse a JSON string body (after the opening quote) up to the closing
quote.  Strict mode: raw control characters below 0x20 are rejected. -/
def parseStrF : Nat → PyStr → Option (PyStr × PyStr)
  | 0, _ => none
  | _ + 1, [] => none
  | f + 1, c :: rest =>
    if c = 34 then some ([], rest)
    else if c = 92 then
      match parseEscape rest with
      | some (v, r2) => (parseStrF f r2).map (fun p => (v :: p.1, p.2))
      | none => none
    else if 32 ≤ c then (parseStrF f rest).map (fun p => (c :: p.1, p.2))
    else none

/-- Accumulating decimal-digit parser. -/
def parseDigits : PyStr → Nat → Nat × PyStr
  | [], acc => (acc, [])
  | c :: r, acc =>
    if isAsciiDigit c then parseDigits r (acc * 10 + (c - 48)) else (acc, c :: r)

/-- Parse a JSON integer (optional minus sign then digits). -/
def parseNumber : PyStr → Option (Int × PyStr)
  | [] => none
  | c :: r =>
    if c = 45 then
      match r with
      | c2 :: r2 =>
        if isAsciiDigit c2 then
          let p := parseDigits r2 (c2 - 48)
          some (-(p.1 : Int), p.2)
        else none
      | [] => none
    else if isAsciiDigit c then
      let p := parseDigits r (c - 48)
      some ((p.1 : Int), p.2)
    else none

/-- Expect one specific character after optional whitespace. -/
def expectChar (x : Nat) (s : PyStr) : Option PyStr :=
  match skipWs s with
  | c :: r => if c = x then some r else none
  | [] => none

mutual
/-- Fuel-driven model of `json.loads`'s value parser on the modelled
fragment. -/
def parseValueF : Nat → PyStr → Option (JValue × PyStr)
  | 0, _ => none
  | f + 1, s =>
    match skipWs s with
    | [] => none
    | c :: rest =>
      if c = 34 then
        (parseStrF (rest.length + 1) rest).map (fun p => (JValue.str p.1, p.2))
      else if c = 123 then
        match skipWs rest with
        | [] => none
        | c2 :: r2 =>
          if c2 = 125 then some (JValue.obj .nil, r2)
          else (parseMemberListF f (c2 :: r2)).map (fun p => (JValue.obj p.1, p.2))
      else (parseNumber (c :: rest)).map (fun p => (JValue.num p.1, p.2))
/-- Parse a non-empty member list and the closing brace. -/
def parseMemberListF : Nat → PyStr → Option (JMembers × PyStr)
  | 0, _ => none
  | f + 1, s =>
    match expectChar 34 s with
    | none => none
    | some r1 =>
      match parseStrF (r1.length + 1) r1 with
      | none => none
      | some (k, r2) =>
        match expectChar 58 r2 with
        | none => none
        | some r3 =>
          match parseValueF f r3 with
          | none => none
          | some (v, r4) =>
            match skipWs r4 with
            | c5 :: r5 =>
              if c5 = 44 then
                (parseMemberListF f r5).map
                  (fun p => (JMembers.cons k v p.1, p.2))
              else if c5 = 125 then some (JMembers.cons k v JMembers.nil, r5)
              else none
            | [] => none
end

/-- Model of `json.loads` on the modelled fragment: parse one value, then
require only whitespace to remain ("Extra data" otherwise). -/
def loads (s : PyStr) : Option JValue :=
  match parseValueF (s.length + 1) s with
  | some (v, rest) => if skipWs rest = [] then some v else none
  | none => none

/-! ## Round trip of the JSON model -/

theorem skipWs_nil : skipWs [] = [] := rfl

theorem skipWs_cons_not (c : Nat) (r : PyStr) (h : isJsonWs c = false) :
    skipWs (c :: r) = c :: r := by
  simp [skipWs, List.dropWhile, h]

theorem skipWs_cons_ws (c : Nat) (r : PyStr) (h : isJsonWs c = true) :
    skipWs (c :: r) = skipWs r := by
  simp [skipWs, List.dropWhile, h]

theorem skipWs_idem (s : PyStr) : skipWs (skipWs s) = skipWs s := by
  induction s with
  | nil => rfl
  | cons c r ih =>
    by_cases h : isJsonWs c = true
    · rw [skipWs_cons_ws c r h]; exact ih
    · rw [skipWs_cons_not c r (by simpa using h),
          skipWs_cons_not c r (by simpa using h)]

theorem isJsonWs_digitish {c : Nat} (h : 45 ≤ c) (h2 : c ≤ 57) :
    isJsonWs c = false := by
  simp [isJsonWs]; omega

theorem hexVal_hexDigitChar : ∀ d < 16, hexVal (hexDigitChar d) = some d := by
  decide

theorem parseHex4_hex4 (n : Nat) (hn : n < 65536) (r : PyStr) :
    parseHex4 (hex4 n ++ r) = some (n, r) := by
  have h1 := hexVal_hexDigitChar (n / 4096 % 16) (by omega)
  have h2 := hexVal_hexDigitChar (n / 256 % 16) (by omega)
  have h3 := hexVal_hexDigitChar (n / 16 % 16) (by omega)
  have h4 := hexVal_hexDigitChar (n % 16) (by omega)
  simp only [hex4, List.cons_append, List.nil_append, parseHex4, h1, h2, h3, h4]
  congr 2
  omega

theorem parseUEscape_bmp (n : Nat) (hn : n < 65536)
    (hs : ¬(55296 ≤ n ∧ n < 57344)) (r : PyStr) :
    parseUEscape (hex4 n ++ r) = some (n, r) := by
  simp only [parseUEscape, parseHex4_hex4 n hn r]
  rw [if_neg (by omega), if_neg (by omega)]

theorem parseUEscape_astral (c : Nat) (h1 : 65536 ≤ c) (h2 : c < 1114112)
    (r : PyStr) :
    parseUEscape (hex4 (55296 + (c - 65536) / 1024) ++
      92 :: 117 :: hex4 (56320 + (c - 65536) % 1024) ++ r) = some (c, r) := by
  have hhi : 55296 + (c - 65536) / 1024 < 65536 := by omega
  have hlo : 56320 + (c - 65536) % 1024 < 65536 := by omega
  have e1 : hex4 (55296 + (c - 65536) / 1024) ++
      92 :: 117 :: hex4 (56320 + (c - 65536) % 1024) ++ r =
      hex4 (55296 + (c - 65536) / 1024) ++
      (92 :: 117 :: (hex4 (56320 + (c - 65536) % 1024) ++ r)) := by
    simp
  rw [e1]
  rw [parseUEscape.eq_def, parseHex4_hex4 _ hhi _]
  dsimp only
  rw [if_pos (show 55296 ≤ 55296 + (c - 65536) / 1024 ∧
        55296 + (c - 65536) / 1024 < 56320 by constructor <;> omega)]
  rw [if_pos (show (92 : Nat) = 92 ∧ (117 : Nat) = 117 from ⟨rfl, rfl⟩)]
  rw [parseHex4_hex4 _ hlo r]
  dsimp only
  rw [if_pos (show 56320 ≤ 56320 + (c - 65536) % 1024 ∧
        56320 + (c - 65536) % 1024 < 57344 by constructor <;> omega)]
  have ev : 65536 + (55296 + (c - 65536) / 1024 - 55296) * 1024 +
      (56320 + (c - 65536) % 1024 - 56320) = c := by omega
  rw [ev]

theorem parseStrF_quote (f : Nat) (r : PyStr) :
    parseStrF (f + 1) (34 :: r) = some ([], r) := by
  rw [parseStrF, if_pos rfl]

theorem parseStrF_escape_case (f : Nat) (body tail : PyStr) (c : Nat)
    (p : PyStr × PyStr)
    (h : parseEscape (body ++ tail) = some (c, tail))
    (hrec : parseStrF f tail = some p) :
    parseStrF (f + 1) (92 :: (body ++ tail)) = some (c :: p.1, p.2) := by
  rw [parseStrF, if_neg (by omega), if_pos rfl, h]
  dsimp only
  rw [hrec]
  rfl

theorem parseStrF_plain (f : Nat) (c : Nat) (tail : PyStr) (p : PyStr × PyStr)
    (h34 : c ≠ 34) (h92 : c ≠ 92) (h32 : 32 ≤ c)
    (hrec : parseStrF f tail = some p) :
    parseStrF (f + 1) (c :: tail) = some (c :: p.1, p.2) := by
  rw [parseStrF, if_neg h34, if_neg h92, if_pos h32, hrec]
  rfl

theorem parseEscape_shorthand (e v : Nat) (tail : PyStr)
    (h : (e = 34 ∧ v = 34) ∨ (e = 92 ∧ v = 92) ∨ (e = 98 ∧ v = 8) ∨
         (e = 116 ∧ v = 9) ∨ (e = 110 ∧ v = 10) ∨ (e = 102 ∧ v = 12) ∨
         (e = 114 ∧ v = 13)) :
    parseEscape (e :: tail) = some (v, tail) := by
  rcases h with ⟨rfl, rfl⟩ | ⟨rfl, rfl⟩ | ⟨rfl, rfl⟩ | ⟨rfl, rfl⟩ |
    ⟨rfl, rfl⟩ | ⟨rfl, rfl⟩ | ⟨rfl, rfl⟩ <;> rfl

theorem parseEscape_u (r : PyStr) : parseEscape (117 :: r) = parseUEscape r := by
  rfl

theorem escapeStr_cons (c : Nat) (s : PyStr) :
    escapeStr (c :: s) = escapeChar c ++ escapeStr s := by
  simp [escapeStr]

theorem escapeStr_nil : escapeStr [] = [] := rfl

theorem escapeChar_len (c : Nat) : 1 ≤ (escapeChar c).length := by
  rw [escapeChar]
  by_cases h34 : c = 34
  · rw [if_pos h34]; simp
  rw [if_neg h34]
  by_cases h92 : c = 92
  · rw [if_pos h92]; simp
  rw [if_neg h92]
  by_cases h8 : c = 8
  · rw [if_pos h8]; simp
  rw [if_neg h8]
  by_cases h9 : c = 9
  · rw [if_pos h9]; simp
  rw [if_neg h9]
  by_cases h10 : c = 10
  · rw [if_pos h10]; simp
  rw [if_neg h10]
  by_cases h12 : c = 12
  · rw [if_pos h12]; simp
  rw [if_neg h12]
  by_cases h13 : c = 13
  · rw [if_pos h13]; simp
  rw [if_neg h13]
  by_cases hctl : c < 32
  · rw [if_pos hctl]; simp
  rw [if_neg hctl]
  by_cases hlit : c < 127
  · rw [if_pos hlit]; simp
  rw [if_neg hlit]
  by_cases hbmp : c < 65536
  · rw [if_pos hbmp]; simp
  rw [if_neg hbmp]
  simp [hex4]

theorem escapeStr_len (s : PyStr) : s.length ≤ (escapeStr s).length := by
  induction s with
  | nil => simp [escapeStr]
  | cons c s ih =>
    rw [escapeStr_cons]
    have h1 := escapeChar_len c
    simp only [List.length_append, List.length_cons]
    omega

theorem parseStrF_escapeStr : ∀ (s : PyStr) (f : Nat) (r : PyStr),
    wfStr s = true → s.length < f →
    parseStrF f (escapeStr s ++ 34 :: r) = some (s, r) := by
  intro s
  induction s with
  | nil =>
    intro f r _ hf
    obtain ⟨f, rfl⟩ : ∃ g, f = g + 1 := ⟨f - 1, by omega⟩
    rw [escapeStr_nil, List.nil_append]
    exact parseStrF_quote f r
  | cons c s ih =>
    intro f r hwf hf
    have hwc : wfScalar c = true := by
      simp [wfStr] at hwf
      simp [hwf.1]
    have hws : wfStr s = true := by
      simp [wfStr] at hwf ⊢
      exact fun x hx => hwf.2 x hx
    obtain ⟨f, rfl⟩ : ∃ g, f = g + 1 := ⟨f - 1, by omega⟩
    have hrec : parseStrF f (escapeStr s ++ 34 :: r) = some (s, r) :=
      ih f r hws (by simp at hf; omega)
    rw [escapeStr_cons, List.append_assoc]
    by_cases h34 : c = 34
    · subst h34
      have he : escapeChar 34 = [92, 34] := by rw [escapeChar, if_pos rfl]
      rw [he]
      exact parseStrF_escape_case f [34] _ 34 (s, r)
        (parseEscape_shorthand 34 34 _ (by norm_num)) hrec
    · by_cases h92 : c = 92
      · subst h92
        have he : escapeChar 92 = [92, 92] := by
          rw [escapeChar, if_neg (by norm_num), if_pos rfl]
        rw [he]
        exact parseStrF_escape_case f [92] _ 92 (s, r)
          (parseEscape_shorthand 92 92 _ (by norm_num)) hrec
      · by_cases h8 : c = 8
        · subst h8
          have he : escapeChar 8 = [92, 98] := by
            rw [escapeChar, if_neg (by norm_num), if_neg (by norm_num),
                if_pos rfl]
          rw [he]
          exact parseStrF_escape_case f [98] _ 8 (s, r)
            (parseEscape_shorthand 98 8 _ (by norm_num)) hrec
        · by_cases h9 : c = 9
          · subst h9
            have he : escapeChar 9 = [92, 116] := by
              rw [escapeChar, if_neg (by norm_num), if_neg (by norm_num),
                  if_neg (by norm_num), if_pos rfl]
            rw [he]
            exact parseStrF_escape_case f [116] _ 9 (s, r)
              (parseEscape_shorthand 116 9 _ (by norm_num)) hrec
          · by_cases h10 : c = 10
            · subst h10
              have he : escapeChar 10 = [92, 110] := by
                rw [escapeChar, if_neg (by norm_num), if_neg (by norm_num),
                    if_neg (by norm_num), if_neg (by norm_num), if_pos rfl]
              rw [he]
              exact parseStrF_escape_case f [110] _ 10 (s, r)
                (parseEscape_shorthand 110 10 _ (by norm_num)) hrec
            · by_cases h12 : c = 12
              · subst h12
                have he : escapeChar 12 = [92, 102] := by
                  rw [escapeChar, if_neg (by norm_num), if_neg (by norm_num),
                      if_neg (by norm_num), if_neg (by norm_num),
                      if_neg (by norm_num), if_pos rfl]
                rw [he]
                exact parseStrF_escape_case f [102] _ 12 (s, r)
                  (parseEscape_shorthand 102 12 _ (by norm_num)) hrec
              · by_cases h13 : c = 13
                · subst h13
                  have he : escapeChar 13 = [92, 114] := by
                    rw [escapeChar, if_neg (by norm_num), if_neg (by norm_num),
                        if_neg (by norm_num), if_neg (by norm_num),
                        if_neg (by norm_num), if_neg (by norm_num), if_pos rfl]
                  rw [he]
                  exact parseStrF_escape_case f [114] _ 13 (s, r)
                    (parseEscape_shorthand 114 13 _ (by norm_num)) hrec
                · by_cases hctl : c < 32
                  · have he : escapeChar c = 92 :: 117 :: hex4 c := by
                      rw [escapeChar, if_neg h34, if_neg h92, if_neg h8,
                          if_neg h9, if_neg h10, if_neg h12, if_neg h13,
                          if_pos hctl]
                    rw [he]
                    have hu : parseEscape ((117 :: hex4 c) ++
                        (escapeStr s ++ 34 :: r)) =
                        some (c, escapeStr s ++ 34 :: r) := by
                      rw [List.cons_append, parseEscape_u]
                      exact parseUEscape_bmp c (by omega) (by omega) _
                    exact parseStrF_escape_case f (117 :: hex4 c) _ c (s, r)
                      hu hrec
                  · by_cases hlit : c < 127
                    · have he : escapeChar c = [c] := by
                        rw [escapeChar, if_neg h34, if_neg h92, if_neg h8,
                            if_neg h9, if_neg h10, if_neg h12, if_neg h13,
                            if_neg hctl, if_pos hlit]
                      rw [he, List.singleton_append]
                      exact parseStrF_plain f c _ (s, r) h34 h92 (by omega)
                        hrec
                    · by_cases hbmp : c < 65536
                      · have he : escapeChar c = 92 :: 117 :: hex4 c := by
                          rw [escapeChar, if_neg h34, if_neg h92, if_neg h8,
                              if_neg h9, if_neg h10, if_neg h12, if_neg h13,
                              if_neg hctl, if_neg (by omega), if_pos hbmp]
                        rw [he]
                        have hns : ¬(55296 ≤ c ∧ c < 57344) := by
                          simp [wfScalar] at hwc
                          omega
                        have hu : parseEscape ((117 :: hex4 c) ++
                            (escapeStr s ++ 34 :: r)) =
                            some (c, escapeStr s ++ 34 :: r) := by
                          rw [List.cons_append, parseEscape_u]
                          exact parseUEscape_bmp c hbmp hns _
                        exact parseStrF_escape_case f (117 :: hex4 c) _ c
                          (s, r) hu hrec
                      · have hmax : c < 1114112 := by
                          simp [wfScalar] at hwc
                          omega
                        have he : escapeChar c =
                            92 :: (117 :: hex4 (55296 + (c - 65536) / 1024) ++
                            (92 :: 117 :: hex4 (56320 + (c - 65536) % 1024))) := by
                          rw [escapeChar, if_neg h34, if_neg h92, if_neg h8,
                              if_neg h9, if_neg h10, if_neg h12, if_neg h13,
                              if_neg hctl, if_neg (by omega), if_neg hbmp]
                          simp
                        rw [he]
                        have hu : parseEscape
                            ((117 :: hex4 (55296 + (c - 65536) / 1024) ++
                              (92 :: 117 :: hex4 (56320 + (c - 65536) % 1024))) ++
                             (escapeStr s ++ 34 :: r)) =
                            some (c, escapeStr s ++ 34 :: r) := by
                          have hast := parseUEscape_astral c (by omega) hmax
                            (escapeStr s ++ 34 :: r)
                          have enorm : (117 :: hex4 (55296 + (c - 65536) / 1024) ++
                              (92 :: 117 :: hex4 (56320 + (c - 65536) % 1024))) ++
                              (escapeStr s ++ 34 :: r) =
                              117 :: (hex4 (55296 + (c - 65536) / 1024) ++
                                92 :: 117 :: hex4 (56320 + (c - 65536) % 1024) ++
                                (escapeStr s ++ 34 :: r)) := by
                            simp
                          rw [enorm, parseEscape_u]
                          exact hast
                        exact parseStrF_escape_case f _ _ c (s, r) hu hrec

/-- The remainder after a serialized JSON number must not begin with a digit
(otherwise the greedy digit parser would absorb it). -/
def noDigitHead : PyStr → Prop
  | [] => True
  | c :: _ => isAsciiDigit c = false

theorem natDigitsF_digits : ∀ (f m : Nat), ∀ d ∈ natDigitsF f m,
    isAsciiDigit d = true := by
  intro f
  induction f with
  | zero => intro m d hd; simp [natDigitsF] at hd
  | succ f ih =>
    intro m d hd
    rw [natDigitsF] at hd
    by_cases hm : m < 10
    · rw [if_pos hm] at hd
      simp at hd
      simp [hd, isAsciiDigit]
      omega
    · rw [if_neg hm] at hd
      simp at hd
      rcases hd with hd | hd
      · exact ih (m / 10) d hd
      · simp [hd, isAsciiDigit]
        omega

theorem natDigitsF_ne_nil (f m : Nat) (hf : 0 < f) : natDigitsF f m ≠ [] := by
  obtain ⟨f, rfl⟩ : ∃ g, f = g + 1 := ⟨f - 1, by omega⟩
  rw [natDigitsF]
  by_cases hm : m < 10
  · rw [if_pos hm]; simp
  · rw [if_neg hm]; simp

theorem parseDigits_concat : ∀ (ds : PyStr) (rest : PyStr) (acc : Nat),
    (∀ d ∈ ds, isAsciiDigit d = true) →
    parseDigits (ds ++ rest) acc =
      parseDigits rest (List.foldl (fun a c => a * 10 + (c - 48)) acc ds) := by
  intro ds
  induction ds with
  | nil => intro rest acc _; rfl
  | cons d ds ih =>
    intro rest acc h
    have hd : isAsciiDigit d = true := h d (by simp)
    rw [List.cons_append, parseDigits, if_pos hd, List.foldl_cons]
    exact ih rest _ (fun x hx => h x (by simp [hx]))

theorem parseDigits_stop (rest : PyStr) (acc : Nat) (h : noDigitHead rest) :
    parseDigits rest acc = (acc, rest) := by
  match rest with
  | [] => rfl
  | c :: r =>
    rw [parseDigits, if_neg]
    simp only [noDigitHead] at h
    simp [h]

theorem foldl_natDigitsF : ∀ (f m acc : Nat), m < f →
    List.foldl (fun a c => a * 10 + (c - 48)) acc (natDigitsF f m) =
      acc * 10 ^ (natDigitsF f m).length + m := by
  intro f
  induction f with
  | zero => intro m acc h; omega
  | succ f ih =>
    intro m acc h
    rw [natDigitsF]
    by_cases hm : m < 10
    · rw [if_pos hm]
      simp
    · rw [if_neg hm]
      have hrec : m / 10 < f := by omega
      rw [List.foldl_append, ih (m / 10) acc hrec]
      simp only [List.foldl_cons, List.foldl_nil, List.length_append,
        List.length_cons, List.length_nil]
      have : 10 ^ ((natDigitsF f (m / 10)).length + (0 + 1)) =
          10 ^ (natDigitsF f (m / 10)).length * 10 := by
        rw [pow_succ]
      rw [this]
      have hmod : m % 10 ≤ 47 := by omega
      ring_nf
      omega

/-- Decomposition of a serialized natural number: a digit head, digit tail,
and the accumulating parser recovers the value. -/
theorem parseDigits_natDigits (m : Nat) (rest : PyStr) (h : noDigitHead rest) :
    ∃ c ds, natDigits m = c :: ds ∧ isAsciiDigit c = true ∧
      parseDigits (ds ++ rest) (c - 48) = (m, rest) := by
  rcases hd : natDigits m with _ | ⟨c, ds⟩
  · exact absurd hd (natDigitsF_ne_nil (m + 1) m (by omega))
  have hnd : natDigitsF (m + 1) m = c :: ds := hd
  have hcd : isAsciiDigit c = true := by
    have := natDigitsF_digits (m + 1) m c
    rw [hnd] at this
    exact this (by simp)
  have hdsd : ∀ d ∈ ds, isAsciiDigit d = true := by
    intro d hdd
    have := natDigitsF_digits (m + 1) m d
    rw [hnd] at this
    exact this (by simp [hdd])
  refine ⟨c, ds, rfl, hcd, ?_⟩
  have hfold := foldl_natDigitsF (m + 1) m 0 (by omega)
  rw [hnd] at hfold
  simp only [List.foldl_cons] at hfold
  have hzero : 0 * 10 + (c - 48) = c - 48 := by omega
  rw [hzero] at hfold
  rw [parseDigits_concat ds rest (c - 48) hdsd, parseDigits_stop rest _ h,
      hfold]
  simp

theorem parseNumber_natDigits (m : Nat) (rest : PyStr) (h : noDigitHead rest) :
    parseNumber (natDigits m ++ rest) = some ((m : Int), rest) := by
  obtain ⟨c, ds, hd, hcd, hp⟩ := parseDigits_natDigits m rest h
  have hc45 : c ≠ 45 := by simp [isAsciiDigit] at hcd; omega
  rw [hd, List.cons_append, parseNumber.eq_def]
  dsimp only
  rw [if_neg hc45, if_pos hcd, hp]

theorem parseNumber_dumpsInt (n : Int) (rest : PyStr) (h : noDigitHead rest) :
    parseNumber (dumpsInt n ++ rest) = some (n, rest) := by
  rw [dumpsInt]
  by_cases hn : n < 0
  · rw [if_pos hn]
    obtain ⟨c, ds, hd, hcd, hp⟩ := parseDigits_natDigits n.natAbs rest h
    rw [hd]
    have el : (45 :: c :: ds) ++ rest = 45 :: c :: (ds ++ rest) := by simp
    rw [el, parseNumber.eq_def]
    dsimp only
    rw [if_pos rfl]
    rw [if_pos hcd, hp]
    simp only [Option.some.injEq, Prod.mk.injEq, and_true]
    omega
  · rw [if_neg hn]
    have := parseNumber_natDigits n.toNat rest h
    rw [this]
    simp
    omega

theorem parseValueF_skipWs (f : Nat) (s : PyStr) :
    parseValueF f (skipWs s) = parseValueF f s := by
  cases f with
  | zero => rfl
  | succ f => rw [parseValueF, parseValueF, skipWs_idem]

theorem expectChar_skipWs (x : Nat) (s : PyStr) :
    expectChar x (skipWs s) = expectChar x s := by
  rw [expectChar, expectChar, skipWs_idem]

theorem parseMemberListF_skipWs (f : Nat) (s : PyStr) :
    parseMemberListF f (skipWs s) = parseMemberListF f s := by
  cases f with
  | zero => rfl
  | succ f => rw [parseMemberListF, parseMemberListF, expectChar_skipWs]

theorem expectChar_hit (x : Nat) (r : PyStr) (hx : isJsonWs x = false) :
    expectChar x (x :: r) = some r := by
  rw [expectChar, skipWs_cons_not x r hx]
  simp

theorem noDigitHead_dmr (tl : JMembers) (r : PyStr) :
    noDigitHead (dumpsMembersRest tl ++ 125 :: r) := by
  cases tl with
  | nil => simp [dumpsMembersRest, noDigitHead, isAsciiDigit]
  | cons k v tl => simp [dumpsMembersRest, noDigitHead, isAsciiDigit]

mutual
theorem jsize_pos : ∀ j : JValue, 1 ≤ jsize j
  | .num _ => le_refl 1
  | .str _ => le_refl 1
  | .obj fs => by have := msize_pos fs; rw [jsize]; omega
theorem msize_pos : ∀ fs : JMembers, 1 ≤ msize fs
  | .nil => le_refl 1
  | .cons _ v tl => by
      have := jsize_pos v
      have := msize_pos tl
      rw [msize]; omega
end

theorem wfStr_of_wfVal_str {s : PyStr} (h : wfVal (.str s) = true) :
    wfStr s = true := h

theorem parseStrF_selfFuel (k : PyStr) (y : PyStr) (hk : wfStr k = true) :
    parseStrF ((escapeStr k ++ 34 :: y).length + 1) (escapeStr k ++ 34 :: y) =
      some (k, y) := by
  apply parseStrF_escapeStr k _ y hk
  have h1 := escapeStr_len k
  simp only [List.length_append, List.length_cons]
  omega

theorem parse_dumps_fuel : ∀ f : Nat,
    (∀ (j : JValue) (r : PyStr), wfVal j = true → jsize j ≤ f → noDigitHead r →
      parseValueF f (dumpsVal j ++ r) = some (j, r)) ∧
    (∀ (k : PyStr) (v : JValue) (tl : JMembers) (r : PyStr),
      wfStr k = true → wfVal v = true → wfMembers tl = true →
      msize (JMembers.cons k v tl) ≤ f →
      parseMemberListF f
        (dumpsStr k ++ 58 :: 32 :: (dumpsVal v ++ (dumpsMembersRest tl ++ 125 :: r))) =
        some (JMembers.cons k v tl, r)) := by
  intro f
  induction f with
  | zero =>
    constructor
    · intro j r _ hsz _
      have := jsize_pos j
      omega
    · intro k v tl r _ _ _ hsz
      have h1 := jsize_pos v
      have h2 := msize_pos tl
      rw [msize] at hsz
      omega
  | succ f ih =>
    obtain ⟨ihA, ihB⟩ := ih
    constructor
    · intro j r hwf hsz hnd
      cases j with
      | num n =>
        obtain ⟨c, t, hd, hc⟩ : ∃ c t, dumpsInt n = c :: t ∧
            (c = 45 ∨ isAsciiDigit c = true) := by
          rw [dumpsInt]
          by_cases hn : n < 0
          · rw [if_pos hn]
            exact ⟨45, _, rfl, Or.inl rfl⟩
          · rw [if_neg hn]
            obtain ⟨c, ds, hdz, hcd, _⟩ := parseDigits_natDigits n.toNat [] trivial
            exact ⟨c, ds, hdz, Or.inr hcd⟩
        have hcws : isJsonWs c = false := by
          rcases hc with rfl | hdig
          · rfl
          · simp [isAsciiDigit] at hdig
            exact isJsonWs_digitish (by omega) (by omega)
        have hc34 : ¬c = 34 := by
          rcases hc with rfl | hdig
          · omega
          · simp [isAsciiDigit] at hdig
            omega
        have hc123 : ¬c = 123 := by
          rcases hc with rfl | hdig
          · omega
          · simp [isAsciiDigit] at hdig
            omega
        rw [show dumpsVal (.num n) = dumpsInt n from rfl, hd, List.cons_append]
        rw [parseValueF, skipWs_cons_not c _ hcws]
        dsimp only
        rw [if_neg hc34, if_neg hc123]
        rw [← List.cons_append, ← hd, parseNumber_dumpsInt n r hnd]
        rfl
      | str ss =>
        have e : dumpsVal (.str ss) ++ r = 34 :: (escapeStr ss ++ 34 :: r) := by
          rw [show dumpsVal (.str ss) = dumpsStr ss from rfl, dumpsStr]
          simp
        rw [e, parseValueF, skipWs_cons_not 34 _ rfl]
        dsimp only
        rw [if_pos rfl, parseStrF_selfFuel ss r hwf]
        rfl
      | obj fs =>
        cases fs with
        | nil =>
          have e : dumpsVal (.obj .nil) ++ r = 123 :: 125 :: r := by
            rw [show dumpsVal (.obj .nil) = [123, 125] from rfl]
            simp
          rw [e, parseValueF, skipWs_cons_not 123 _ rfl]
          dsimp only
          rw [if_neg (by omega), if_pos rfl, skipWs_cons_not 125 _ rfl]
          dsimp only
          rw [if_pos rfl]
        | cons k v tl =>
          have hsplit : wfStr k = true ∧ wfVal v = true ∧ wfMembers tl = true := by
            have h : wfMembers (.cons k v tl) = true := hwf
            rw [wfMembers] at h
            simp only [Bool.and_eq_true] at h
            exact ⟨h.1.1, h.1.2, h.2⟩
          have hsz2 : msize (JMembers.cons k v tl) ≤ f := by
            rw [jsize] at hsz
            omega
          have e : dumpsVal (.obj (.cons k v tl)) ++ r =
              123 :: (dumpsStr k ++ 58 :: 32 ::
                (dumpsVal v ++ (dumpsMembersRest tl ++ 125 :: r))) := by
            rw [show dumpsVal (.obj (.cons k v tl)) =
              123 :: (dumpsStr k ++ 58 :: 32 :: dumpsVal v ++
                dumpsMembersRest tl) ++ [125] from rfl]
            simp
          have e2 : dumpsStr k ++ 58 :: 32 ::
              (dumpsVal v ++ (dumpsMembersRest tl ++ 125 :: r)) =
              34 :: (escapeStr k ++ 34 :: (58 :: 32 ::
                (dumpsVal v ++ (dumpsMembersRest tl ++ 125 :: r)))) := by
            rw [dumpsStr]
            simp
          rw [e, parseValueF, skipWs_cons_not 123 _ rfl]
          dsimp only
          rw [if_neg (by omega), if_pos rfl, e2, skipWs_cons_not 34 _ rfl]
          dsimp only
          rw [if_neg (by omega), ← e2,
            ihB k v tl r hsplit.1 hsplit.2.1 hsplit.2.2 hsz2]
          rfl
    · intro k v tl r hk hv htl hsz
      have e2 : dumpsStr k ++ 58 :: 32 ::
          (dumpsVal v ++ (dumpsMembersRest tl ++ 125 :: r)) =
          34 :: (escapeStr k ++ 34 :: (58 :: 32 ::
            (dumpsVal v ++ (dumpsMembersRest tl ++ 125 :: r)))) := by
        rw [dumpsStr]
        simp
      rw [parseMemberListF, e2, expectChar_hit 34 _ rfl]
      dsimp only
      rw [parseStrF_selfFuel k _ hk]
      dsimp only
      rw [expectChar_hit 58 _ rfl]
      dsimp only
      have hskip : parseValueF f
          (32 :: (dumpsVal v ++ (dumpsMembersRest tl ++ 125 :: r))) =
          parseValueF f (dumpsVal v ++ (dumpsMembersRest tl ++ 125 :: r)) := by
        rw [← parseValueF_skipWs f (32 :: _), skipWs_cons_ws 32 _ rfl,
          parseValueF_skipWs]
      have hszv : jsize v ≤ f := by
        rw [msize] at hsz
        have := msize_pos tl
        omega
      rw [hskip, ihA v _ hv hszv (noDigitHead_dmr tl r)]
      dsimp only
      cases tl with
      | nil =>
        rw [show dumpsMembersRest JMembers.nil = ([] : PyStr) from rfl,
          List.nil_append, skipWs_cons_not 125 _ rfl]
        dsimp only
        rw [if_neg (by omega), if_pos rfl]
      | cons k2 v2 tl2 =>
        have hsplit : wfStr k2 = true ∧ wfVal v2 = true ∧
            wfMembers tl2 = true := by
          have h : wfMembers (.cons k2 v2 tl2) = true := htl
          rw [wfMembers] at h
          simp only [Bool.and_eq_true] at h
          exact ⟨h.1.1, h.1.2, h.2⟩
        have hsz3 : msize (JMembers.cons k2 v2 tl2) ≤ f := by
          rw [msize] at hsz
          have := jsize_pos v
          omega
        have e3 : dumpsMembersRest (.cons k2 v2 tl2) ++ 125 :: r =
            44 :: 32 :: (dumpsStr k2 ++ 58 :: 32 ::
              (dumpsVal v2 ++ (dumpsMembersRest tl2 ++ 125 :: r))) := by
          rw [show dumpsMembersRest (.cons k2 v2 tl2) =
            44 :: 32 :: (dumpsStr k2 ++ 58 :: 32 :: dumpsVal v2) ++
              dumpsMembersRest tl2 from rfl]
          simp
        rw [e3, skipWs_cons_not 44 _ rfl]
        dsimp only
        rw [if_pos rfl]
        have hskip2 : parseMemberListF f (32 :: (dumpsStr k2 ++ 58 :: 32 ::
            (dumpsVal v2 ++ (dumpsMembersRest tl2 ++ 125 :: r)))) =
            parseMemberListF f (dumpsStr k2 ++ 58 :: 32 ::
              (dumpsVal v2 ++ (dumpsMembersRest tl2 ++ 125 :: r))) := by
          rw [← parseMemberListF_skipWs f (32 :: _), skipWs_cons_ws 32 _ rfl,
            parseMemberListF_skipWs]
        rw [hskip2, ihB k2 v2 tl2 r hsplit.1 hsplit.2.1 hsplit.2.2 hsz3]
        rfl

theorem natDigits_len (m : Nat) : 1 ≤ (natDigits m).length := by
  rcases hd : natDigits m with _ | ⟨c, ds⟩
  · exact absurd hd (natDigitsF_ne_nil (m + 1) m (by omega))
  · simp

theorem dumpsInt_len (n : Int) : 1 ≤ (dumpsInt n).length := by
  rw [dumpsInt]
  by_cases hn : n < 0
  · rw [if_pos hn]; simp
  · rw [if_neg hn]; exact natDigits_len n.toNat

mutual
theorem jsize_le_dumpsLen : ∀ j : JValue, jsize j ≤ (dumpsVal j).length
  | .num n => by
      rw [jsize, show dumpsVal (.num n) = dumpsInt n from rfl]
      exact dumpsInt_len n
  | .str s => by
      rw [jsize, show dumpsVal (.str s) = dumpsStr s from rfl, dumpsStr]
      simp
  | .obj .nil => by
      rw [jsize, msize, show dumpsVal (.obj .nil) = [123, 125] from rfl]
      simp
  | .obj (.cons k v tl) => by
      have h1 := jsize_le_dumpsLen v
      have h2 := msize_le_dumpsLen tl
      rw [jsize, msize,
        show dumpsVal (.obj (.cons k v tl)) =
          123 :: (dumpsStr k ++ 58 :: 32 :: dumpsVal v ++
            dumpsMembersRest tl) ++ [125] from rfl]
      simp only [dumpsStr, List.length_append, List.length_cons]
      omega
theorem msize_le_dumpsLen : ∀ fs : JMembers,
    msize fs ≤ (dumpsMembersRest fs).length + 2
  | .nil => by rw [msize]; simp [dumpsMembersRest]
  | .cons k v tl => by
      have h1 := jsize_le_dumpsLen v
      have h2 := msize_le_dumpsLen tl
      rw [msize,
        show dumpsMembersRest (.cons k v tl) =
          44 :: 32 :: (dumpsStr k ++ 58 :: 32 :: dumpsVal v) ++
            dumpsMembersRest tl from rfl]
      simp only [dumpsStr, List.length_append, List.length_cons]
      omega
end

/-- Round trip of the JSON collaborator on the modelled fragment: parsing a
serialized well-formed value yields the value back. -/
theorem loads_dumps (j : JValue) (h : wfVal j = true) :
    loads (dumpsVal j) = some j := by
  rw [loads]
  have hsz : jsize j ≤ (dumpsVal j).length + 1 := by
    have := jsize_le_dumpsLen j
    omega
  have hA := (parse_dumps_fuel ((dumpsVal j).length + 1)).1 j [] h hsz trivial
  rw [List.append_nil] at hA
  rw [hA]
  rfl

/-! ## Message codec (`cmit/messages.py`)

`CMITMessage` stores the `_topic` and `_payload` slots as byte strings, the
`msg_id` slot as an arbitrary Python object (a `JValue`), and the timestamp
at second precision as an integer.  The topic/payload arguments mirror the
`TopicType`/`PayloadType` unions of `cmit/typing.py`. -/

structure CMITMessage where
  timestamp : Int
  msg_id : JValue
  topicB : PyBytes
  payloadB : PyBytes
deriving DecidableEq, Repr

/-- The `TopicType` union: `str`, `bytes` or a zero-argument producer. -/
inductive TopicArg where
  | str (s : PyStr)
  | bytes (b : PyBytes)
  | producer (f : Unit → PyStr)

/-- The `PayloadType` union: `str`, `bytes`, a producer, or a structured
JSON-serializable value (the `else: json.dumps(value)` branch). -/
inductive PayloadArg where
  | str (s : PyStr)
  | bytes (b : PyBytes)
  | producer (f : Unit → PyStr)
  | jval (j : JValue)

/-- Model of `CMITMessage.__init__`: resolves the topic to Latin-1 bytes
(bytes kept, strings and producer results Latin-1 encoded), sets the payload
slot to `b""`. -/
def CMITMessage.init (topic : TopicArg) (msg_id : JValue) (now : Int) :
    Except PyExc CMITMessage :=
  match topic with
  | .bytes b => .ok ⟨now, msg_id, b, []⟩
  | .str s =>
    match latin1Encode s with
    | .ok b => .ok ⟨now, msg_id, b, []⟩
    | .error e => .error e
  | .producer f =>
    match latin1Encode (f ()) with
    | .ok b => .ok ⟨now, msg_id, b, []⟩
    | .error e => .error e

/-- Model of the `CMITMessage.payload` setter: strings and producer results
are Latin-1 encoded, bytes stored as-is, anything else `json.dumps`-ed then
Latin-1 encoded. -/
def CMITMessage.payloadSet (m : CMITMessage) (v : PayloadArg) :
    Except PyExc CMITMessage :=
  match v with
  | .str s =>
    match latin1Encode s with
    | .ok b => .ok { m with payloadB := b }
    | .error e => .error e
  | .bytes b => .ok { m with payloadB := b }
  | .producer f =>
    match latin1Encode (f ()) with
    | .ok b => .ok { m with payloadB := b }
    | .error e => .error e
  | .jval j =>
    match latin1Encode (dumpsVal j) with
    | .ok b => .ok { m with payloadB := b }
    | .error e => .error e

/-- Model of the `CMITMessage.topic` property:
`self._topic.decode("utf-8")`. -/
def CMITMessage.topicProp (m : CMITMessage) : Except PyExc PyStr :=
  match utf8Decode m.topicB with
  | some s => .ok s
  | none => .error .unicodeDecodeError

/-- Model of the `CMITMessage.payload` property:
`self._payload.decode("utf-8")`. -/
def CMITMessage.payloadProp (m : CMITMessage) : Except PyExc PyStr :=
  match utf8Decode m.payloadB with
  | some s => .ok s
  | none => .error .unicodeDecodeError

/-- The four-key dict `as_string` builds, in source order:
`_id`, `timestamp`, `topic`, `payload`. -/
def mkFields (idV : JValue) (ts : Int) (t p : PyStr) : JMembers :=
  .cons (pstr "_id") idV
    (.cons (pstr "timestamp") (.num ts)
      (.cons (pstr "topic") (.str t)
        (.cons (pstr "payload") (.str p) .nil)))

/-- Model of `CMITMessage.as_string` (default `iso_date=False`,
`indent=None`): `json.dumps` of the four-key dict, with the topic and
payload read through their UTF-8-decoding properties. -/
def CMITMessage.as_string (m : CMITMessage) : Except PyExc PyStr :=
  match CMITMessage.topicProp m with
  | .error e => .error e
  | .ok t =>
    match CMITMessage.payloadProp m with
    | .error e => .error e
    | .ok p => .ok (dumpsVal (.obj (mkFields m.msg_id m.timestamp t p)))

/-- Model of `CMITMessage.as_bytes`: `encode(self.as_string(), ...)`,
i.e. Latin-1 encoding of the JSON text. -/
def CMITMessage.as_bytes (m : CMITMessage) : Except PyExc PyBytes :=
  match CMITMessage.as_string m with
  | .ok s => latin1Encode s
  | .error e => .error e

/-- Model of `CMITMessage.__call__`: `base64.b64encode(self.as_bytes())` —
the encoded wire line of the message (the framing appends CRLF). -/
def encodeWire (m : CMITMessage) : Except PyExc PyBytes :=
  match CMITMessage.as_bytes m with
  | .ok bs => .ok (b64encode bs)
  | .error e => .error e

/-- First-match lookup in a JSON object (Python dict indexing; keys are
unique in any dict produced by `json.loads`). -/
def jLookup (k : PyStr) : JMembers → Option JValue
  | .nil => none
  | .cons k2 v tl => if k2 = k then some v else jLookup k tl

/-- In-place update of an existing key (Python dict item assignment keeps
the key's position). -/
def jSet (k : PyStr) (v : JValue) : JMembers → JMembers
  | .nil => .nil
  | .cons k2 v2 tl => if k2 = k then .cons k2 v tl else .cons k2 v2 (jSet k v tl)

def jHasKey (k : PyStr) (fs : JMembers) : Bool := (jLookup k fs).isSome

/-- The `try:` block of `CMITMessage.parse_message`: base64-decode, UTF-8
decode, strip, `json.loads`, then peek at `decoded_msg["payload"]` (KeyError
if the key is absent, TypeError if the decoded value is not a dict) and
re-parse it when it is a string starting with `{`. -/
def parseMessageTry (msg : PyBytes) : Except PyExc JValue :=
  match b64decode msg with
  | .error e => .error e
  | .ok bs =>
    match utf8Decode bs with
    | none => .error .unicodeDecodeError
    | some s =>
      match loads (pyStrip s) with
      | none => .error .jsonDecodeError
      | some j =>
        match j with
        | .obj fields =>
          match jLookup (pstr "payload") fields with
          | none => .error .keyError
          | some p =>
            match p with
            | .str ps =>
              if ps.head? = some 123 then
                match loads ps with
                | none => .error .jsonDecodeError
                | some pj => .ok (.obj (jSet (pstr "payload") pj fields))
              else .ok (.obj fields)
            | _ => .ok (.obj fields)
        | _ => .error .typeError

/-- The four required message keys, in the order the source lists them. -/
def msgKeys : List PyStr :=
  [pstr "_id", pstr "topic", pstr "timestamp", pstr "payload"]

def missingKeys (fields : JMembers) : List PyStr :=
  msgKeys.filter (fun k => !jHasKey k fields)

/-- Model of `CMITMessage.parse_message`: run the `try:` block
(`except json.JSONDecodeError` re-raises as a plain `ValueError`), check the
four required keys, then build the message: construct from the decoded
topic and `_id`, assign the payload through the setter, overwrite the
timestamp via `datetime.fromtimestamp` (TypeError unless it is a number). -/
def parse_message (msg : PyBytes) : Except PyExc CMITMessage :=
  match parseMessageTry msg with
  | .error e => if e = .jsonDecodeError then .error .valueError else .error e
  | .ok dm =>
    match dm with
    | .obj fields =>
      if missingKeys fields ≠ [] then .error .valueError
      else
        match jLookup (pstr "topic") fields with
        | none => .error .keyError
        | some topicV =>
          match jLookup (pstr "_id") fields with
          | none => .error .keyError
          | some idV =>
            match
              (match topicV with
               | .str s => CMITMessage.init (.str s) idV 0
               | _ => .error .typeError) with
            | .error e => .error e
            | .ok m0 =>
              match jLookup (pstr "payload") fields with
              | none => .error .keyError
              | some payloadV =>
                match
                  (match payloadV with
                   | .str s => CMITMessage.payloadSet m0 (.str s)
                   | j => CMITMessage.payloadSet m0 (.jval j)) with
                | .error e => .error e
                | .ok m1 =>
                  match jLookup (pstr "timestamp") fields with
                  | none => .error .keyError
                  | some tsV =>
                    match tsV with
                    | .num t => .ok { m1 with timestamp := t }
                    | _ => .error .typeError
    | _ => .error .typeError

/-! ## ASCII shape of serialized JSON (ensure_ascii) -/

theorem hex4_ascii (n : Nat) : ∀ c ∈ hex4 n, c < 128 := by
  intro c hc
  simp only [hex4, List.mem_cons, List.not_mem_nil, or_false] at hc
  have hd : ∀ d, d < 16 → hexDigitChar d < 128 := by decide
  rcases hc with rfl | rfl | rfl | rfl
  · exact hd _ (by omega)
  · exact hd _ (by omega)
  · exact hd _ (by omega)
  · exact hd _ (by omega)

theorem escapeChar_ascii (c : Nat) : ∀ x ∈ escapeChar c, x < 128 := by
  intro x hx
  rw [escapeChar] at hx
  by_cases h34 : c = 34
  · rw [if_pos h34] at hx; simp at hx; omega
  rw [if_neg h34] at hx
  by_cases h92 : c = 92
  · rw [if_pos h92] at hx; simp at hx; omega
  rw [if_neg h92] at hx
  by_cases h8 : c = 8
  · rw [if_pos h8] at hx; simp at hx; omega
  rw [if_neg h8] at hx
  by_cases h9 : c = 9
  · rw [if_pos h9] at hx; simp at hx; omega
  rw [if_neg h9] at hx
  by_cases h10 : c = 10
  · rw [if_pos h10] at hx; simp at hx; omega
  rw [if_neg h10] at hx
  by_cases h12 : c = 12
  · rw [if_pos h12] at hx; simp at hx; omega
  rw [if_neg h12] at hx
  by_cases h13 : c = 13
  · rw [if_pos h13] at hx; simp at hx; omega
  rw [if_neg h13] at hx
  by_cases hctl : c < 32
  · rw [if_pos hctl] at hx
    simp at hx
    rcases hx with rfl | rfl | hx
    · omega
    · omega
    · exact hex4_ascii c x hx
  rw [if_neg hctl] at hx
  by_cases hlit : c < 127
  · rw [if_pos hlit] at hx; simp at hx; omega
  rw [if_neg hlit] at hx
  by_cases hbmp : c < 65536
  · rw [if_pos hbmp] at hx
    simp at hx
    rcases hx with rfl | rfl | hx
    · omega
    · omega
    · exact hex4_ascii c x hx
  rw [if_neg hbmp] at hx
  rcases List.mem_cons.mp hx with rfl | hx
  · omega
  rcases List.mem_cons.mp hx with rfl | hx
  · omega
  rcases List.mem_append.mp hx with hx | hx
  · exact hex4_ascii _ x hx
  rcases List.mem_cons.mp hx with rfl | hx
  · omega
  rcases List.mem_cons.mp hx with rfl | hx
  · omega
  exact hex4_ascii _ x hx

theorem escapeStr_ascii (s : PyStr) : ∀ x ∈ escapeStr s, x < 128 := by
  intro x hx
  simp only [escapeStr, List.mem_flatMap] at hx
  obtain ⟨c, _, hc⟩ := hx
  exact escapeChar_ascii c x hc

theorem dumpsStr_ascii (s : PyStr) : ∀ x ∈ dumpsStr s, x < 128 := by
  intro x hx
  rw [dumpsStr] at hx
  rcases List.mem_cons.mp hx with rfl | hx
  · omega
  rcases List.mem_append.mp hx with hx | hx
  · exact escapeStr_ascii s x hx
  · simp at hx; omega

theorem natDigitsF_ascii (f m : Nat) : ∀ x ∈ natDigitsF f m, x < 128 := by
  intro x hx
  have := natDigitsF_digits f m x hx
  simp [isAsciiDigit] at this
  omega

theorem dumpsInt_ascii (n : Int) : ∀ x ∈ dumpsInt n, x < 128 := by
  intro x hx
  rw [dumpsInt] at hx
  by_cases hn : n < 0
  · rw [if_pos hn] at hx
    simp at hx
    rcases hx with rfl | hx
    · omega
    · exact natDigitsF_ascii _ _ x hx
  · rw [if_neg hn] at hx
    exact natDigitsF_ascii _ _ x hx

mutual
theorem dumpsVal_ascii : ∀ j : JValue, ∀ x ∈ dumpsVal j, x < 128
  | .num n => dumpsInt_ascii n
  | .str s => dumpsStr_ascii s
  | .obj .nil => by
      intro x hx
      rw [show dumpsVal (.obj .nil) = [123, 125] from rfl] at hx
      simp at hx
      omega
  | .obj (.cons k v tl) => by
      intro x hx
      rw [show dumpsVal (.obj (.cons k v tl)) =
        123 :: (dumpsStr k ++ 58 :: 32 :: dumpsVal v ++
          dumpsMembersRest tl) ++ [125] from rfl] at hx
      rcases List.mem_append.mp hx with hx | hx
      · rcases List.mem_cons.mp hx with rfl | hx
        · omega
        rcases List.mem_append.mp hx with hx | hx
        · rcases List.mem_append.mp hx with hx | hx
          · exact dumpsStr_ascii k x hx
          rcases List.mem_cons.mp hx with rfl | hx
          · omega
          rcases List.mem_cons.mp hx with rfl | hx
          · omega
          exact dumpsVal_ascii v x hx
        · exact dumpsMembersRest_ascii tl x hx
      · simp at hx; omega
theorem dumpsMembersRest_ascii : ∀ fs : JMembers, ∀ x ∈ dumpsMembersRest fs,
    x < 128
  | .nil => by intro x hx; simp [dumpsMembersRest] at hx
  | .cons k v tl => by
      intro x hx
      rw [show dumpsMembersRest (.cons k v tl) =
        44 :: 32 :: (dumpsStr k ++ 58 :: 32 :: dumpsVal v) ++
          dumpsMembersRest tl from rfl] at hx
      rcases List.mem_append.mp hx with hx | hx
      · rcases List.mem_cons.mp hx with rfl | hx
        · omega
        rcases List.mem_cons.mp hx with rfl | hx
        · omega
        rcases List.mem_append.mp hx with hx | hx
        · exact dumpsStr_ascii k x hx
        rcases List.mem_cons.mp hx with rfl | hx
        · omega
        rcases List.mem_cons.mp hx with rfl | hx
        · omega
        exact dumpsVal_ascii v x hx
      · exact dumpsMembersRest_ascii tl x hx
end

theorem pyStrip_id (s : PyStr)
    (h1 : ∀ a, s.head? = some a → isPySpace a = false)
    (h2 : ∀ b, s.getLast? = some b → isPySpace b = false) :
    pyStrip s = s := by
  rw [pyStrip]
  have hd : s.dropWhile (isPySpace ·) = s := by
    cases hs : s with
    | nil => rfl
    | cons a t =>
      rw [List.dropWhile_cons, if_neg]
      rw [h1 a (by rw [hs]; rfl)]
      simp
  rw [hd]
  have hrev : s.reverse.dropWhile (isPySpace ·) = s.reverse := by
    cases hs : s.reverse with
    | nil => rfl
    | cons b t =>
      rw [List.dropWhile_cons, if_neg]
      have : s.getLast? = some b := by
        rw [List.getLast?_eq_head?_reverse, hs]
        rfl
      rw [h2 b this]
      simp
  rw [hrev, List.reverse_reverse]

theorem wfStr_of_ascii (s : PyStr) (h : ∀ c ∈ s, c < 128) : wfStr s = true := by
  rw [wfStr, List.all_eq_true]
  intro c hc
  have := h c hc
  simp [wfScalar]
  omega

theorem wfVal_mkFields (idV : JValue) (ts : Int) (t p : PyStr)
    (hid : wfVal idV = true) (ht : wfStr t = true) (hp : wfStr p = true) :
    wfVal (.obj (mkFields idV ts t p)) = true := by
  show wfMembers (mkFields idV ts t p) = true
  rw [mkFields]
  rw [wfMembers, wfMembers, wfMembers, wfMembers, wfMembers]
  simp only [Bool.and_eq_true]
  refine ⟨⟨?_, hid⟩, ⟨?_, ?_⟩, ⟨?_, ht⟩, ⟨?_, hp⟩, ?_⟩ <;> first
    | decide
    | rfl

theorem dumpsVal_obj_head (k : PyStr) (v : JValue) (tl : JMembers) :
    (dumpsVal (.obj (.cons k v tl))).head? = some 123 := by
  rw [show dumpsVal (.obj (.cons k v tl)) =
    123 :: (dumpsStr k ++ 58 :: 32 :: dumpsVal v ++
      dumpsMembersRest tl) ++ [125] from rfl]
  rfl

theorem dumpsVal_obj_last (k : PyStr) (v : JValue) (tl : JMembers) :
    (dumpsVal (.obj (.cons k v tl))).getLast? = some 125 := by
  rw [show dumpsVal (.obj (.cons k v tl)) =
    123 :: (dumpsStr k ++ 58 :: 32 :: dumpsVal v ++
      dumpsMembersRest tl) ++ [125] from rfl]
  rw [List.getLast?_concat]

theorem pyStrip_dumps_obj (fs : JMembers) :
    pyStrip (dumpsVal (.obj fs)) = dumpsVal (.obj fs) := by
  cases fs with
  | nil => rfl
  | cons k v tl =>
    apply pyStrip_id
    · intro a ha
      rw [dumpsVal_obj_head] at ha
      simp at ha
      subst ha
      rfl
    · intro b hb
      rw [dumpsVal_obj_last] at hb
      simp at hb
      subst hb
      rfl

/-- The spec's `decode(encode(m))`: the encoded wire line of `m` (with its
CRLF line terminator) fed back through `CMITMessage.parse_message`. -/
def decodeEncode (m : CMITMessage) : Except PyExc CMITMessage :=
  match encodeWire m with
  | .ok w => parse_message (w ++ [13, 10])
  | .error e => .error e

theorem b64decode_append_crlf (x : PyBytes) (hx : ∀ b ∈ x, b < 256) :
    b64decode (b64encode x ++ [13, 10]) = .ok x := by
  rw [b64decode, List.filter_append,
    List.filter_eq_self.mpr (b64encode_chars x hx)]
  rw [show List.filter (fun c => isB64Char c || c = 61) [13, 10] = [] from rfl]
  rw [List.append_nil]
  exact b64decodeGroups_b64encode x hx

theorem encodeWire_ascii (ts : Int) (idV : JValue) (t p : PyStr)
    (ht : ∀ c ∈ t, c < 128) (hp : ∀ c ∈ p, c < 128) :
    encodeWire ⟨ts, idV, t, p⟩ =
      .ok (b64encode (dumpsVal (.obj (mkFields idV ts t p)))) := by
  rw [encodeWire, CMITMessage.as_bytes, CMITMessage.as_string,
    CMITMessage.topicProp]
  dsimp only
  rw [utf8Decode_ascii t ht]
  dsimp only
  rw [CMITMessage.payloadProp]
  dsimp only
  rw [utf8Decode_ascii p hp]
  dsimp only
  rw [latin1Encode, if_pos]
  rw [List.all_eq_true]
  intro c hc
  have := dumpsVal_ascii (.obj (mkFields idV ts t p)) c hc
  simp
  omega

theorem jLookup_mkFields_payload (idV : JValue) (ts : Int) (t p : PyStr) :
    jLookup (pstr "payload") (mkFields idV ts t p) = some (.str p) := by
  rw [mkFields, jLookup, if_neg (by decide), jLookup, if_neg (by decide),
    jLookup, if_neg (by decide), jLookup, if_pos rfl]

theorem jSet_mkFields_payload (idV : JValue) (ts : Int) (t p : PyStr)
    (x : JValue) :
    jSet (pstr "payload") x (mkFields idV ts t p) =
      .cons (pstr "_id") idV
        (.cons (pstr "timestamp") (.num ts)
          (.cons (pstr "topic") (.str t)
            (.cons (pstr "payload") x .nil))) := by
  rw [mkFields, jSet, if_neg (by decide), jSet, if_neg (by decide),
    jSet, if_neg (by decide), jSet, if_pos rfl]

theorem parseMessageTry_wire (idV : JValue) (ts : Int) (t p : PyStr)
    (hid : wfVal idV = true) (ht : ∀ c ∈ t, c < 128) (hp : ∀ c ∈ p, c < 128) :
    parseMessageTry (b64encode (dumpsVal (.obj (mkFields idV ts t p))) ++ [13, 10]) =
      (if p.head? = some 123 then
        match loads p with
        | none => .error .jsonDecodeError
        | some pj => .ok (.obj (jSet (pstr "payload") pj (mkFields idV ts t p)))
      else .ok (.obj (mkFields idV ts t p))) := by
  have hascii := dumpsVal_ascii (.obj (mkFields idV ts t p))
  have h256 : ∀ b ∈ dumpsVal (.obj (mkFields idV ts t p)), b < 256 := by
    intro b hb
    have := hascii b hb
    omega
  rw [parseMessageTry, b64decode_append_crlf _ h256]
  dsimp only
  rw [utf8Decode_ascii _ hascii]
  dsimp only
  rw [pyStrip_dumps_obj (mkFields idV ts t p)]
  rw [loads_dumps _ (wfVal_mkFields idV ts t p hid
    (wfStr_of_ascii t ht) (wfStr_of_ascii p hp))]
  dsimp only
  rw [jLookup_mkFields_payload]

/-- The decoded four-key object with an arbitrary payload value (the shape
after the opportunistic payload re-parse). -/
def fields4 (idV : JValue) (ts : Int) (t : PyStr) (pv : JValue) : JMembers :=
  .cons (pstr "_id") idV
    (.cons (pstr "timestamp") (.num ts)
      (.cons (pstr "topic") (.str t)
        (.cons (pstr "payload") pv .nil)))

theorem mkFields_eq_fields4 (idV : JValue) (ts : Int) (t p : PyStr) :
    mkFields idV ts t p = fields4 idV ts t (.str p) := rfl

theorem jLookup_fields4_topic (idV pv : JValue) (ts : Int) (t : PyStr) :
    jLookup (pstr "topic") (fields4 idV ts t pv) = some (.str t) := by
  rw [fields4, jLookup, if_neg (by decide), jLookup, if_neg (by decide),
    jLookup, if_pos rfl]

theorem jLookup_fields4_id (idV pv : JValue) (ts : Int) (t : PyStr) :
    jLookup (pstr "_id") (fields4 idV ts t pv) = some idV := by
  rw [fields4, jLookup, if_pos rfl]

theorem jLookup_fields4_ts (idV pv : JValue) (ts : Int) (t : PyStr) :
    jLookup (pstr "timestamp") (fields4 idV ts t pv) = some (.num ts) := by
  rw [fields4, jLookup, if_neg (by decide), jLookup, if_pos rfl]

theorem jLookup_fields4_payload (idV pv : JValue) (ts : Int) (t : PyStr) :
    jLookup (pstr "payload") (fields4 idV ts t pv) = some pv := by
  rw [fields4, jLookup, if_neg (by decide), jLookup, if_neg (by decide),
    jLookup, if_neg (by decide), jLookup, if_pos rfl]

theorem missingKeys_fields4 (idV pv : JValue) (ts : Int) (t : PyStr) :
    missingKeys (fields4 idV ts t pv) = [] := by
  rw [missingKeys, msgKeys]
  have h1 : jHasKey (pstr "_id") (fields4 idV ts t pv) = true := by
    rw [jHasKey, jLookup_fields4_id]; rfl
  have h2 : jHasKey (pstr "topic") (fields4 idV ts t pv) = true := by
    rw [jHasKey, jLookup_fields4_topic]; rfl
  have h3 : jHasKey (pstr "timestamp") (fields4 idV ts t pv) = true := by
    rw [jHasKey, jLookup_fields4_ts]; rfl
  have h4 : jHasKey (pstr "payload") (fields4 idV ts t pv) = true := by
    rw [jHasKey, jLookup_fields4_payload]; rfl
  simp [List.filter, h1, h2, h3, h4]

theorem parse_message_of_try_str (msg : PyBytes) (idV : JValue) (ts : Int)
    (t p : PyStr)
    (htry : parseMessageTry msg = .ok (.obj (fields4 idV ts t (.str p))))
    (ht : ∀ c ∈ t, c < 256) (hp : ∀ c ∈ p, c < 256) :
    parse_message msg = .ok ⟨ts, idV, t, p⟩ := by
  have hlat1 : t.all (· < 256) = true := by
    rw [List.all_eq_true]
    intro c hc
    simpa using ht c hc
  have hlat2 : p.all (· < 256) = true := by
    rw [List.all_eq_true]
    intro c hc
    simpa using hp c hc
  rw [parse_message, htry]
  dsimp only
  rw [missingKeys_fields4]
  rw [if_neg (by simp)]
  rw [jLookup_fields4_topic, jLookup_fields4_id]
  dsimp only
  rw [CMITMessage.init]
  rw [latin1Encode, if_pos hlat1]
  dsimp only
  rw [jLookup_fields4_payload]
  dsimp only
  rw [CMITMessage.payloadSet]
  dsimp only
  rw [latin1Encode, if_pos hlat2]
  dsimp only
  rw [jLookup_fields4_ts]

theorem parse_message_of_try_obj (msg : PyBytes) (idV : JValue) (ts : Int)
    (t : PyStr) (pf : JMembers)
    (htry : parseMessageTry msg = .ok (.obj (fields4 idV ts t (.obj pf))))
    (ht : ∀ c ∈ t, c < 256) :
    parse_message msg = .ok ⟨ts, idV, t, dumpsVal (.obj pf)⟩ := by
  have hlat1 : t.all (· < 256) = true := by
    rw [List.all_eq_true]
    intro c hc
    simpa using ht c hc
  have hlat2 : (dumpsVal (.obj pf)).all (· < 256) = true := by
    rw [List.all_eq_true]
    intro c hc
    have := dumpsVal_ascii (.obj pf) c hc
    simp
    omega
  rw [parse_message, htry]
  dsimp only
  rw [missingKeys_fields4]
  rw [if_neg (by simp)]
  rw [jLookup_fields4_topic, jLookup_fields4_id]
  dsimp only
  rw [CMITMessage.init]
  rw [latin1Encode, if_pos hlat1]
  dsimp only
  rw [jLookup_fields4_payload]
  dsimp only
  rw [CMITMessage.payloadSet]
  dsimp only
  rw [latin1Encode, if_pos hlat2]
  dsimp only
  rw [jLookup_fields4_ts]

theorem dumpsVal_obj_head_any (pf : JMembers) :
    (dumpsVal (.obj pf)).head? = some 123 := by
  cases pf with
  | nil => rfl
  | cons k v tl => exact dumpsVal_obj_head k v tl

/-- C1 (amended): for a Message whose topic is a printable-ASCII string and
whose id is a well-formed string, `decode(encode(m))` preserves topic, id
and timestamp (second precision); an opaque printable-ASCII string payload
that does not begin with `{` round-trips unchanged; a structured (dict)
payload round-trips to the same structured value (the stored serialization
is re-parsed on decode and re-serialized to the same bytes).  The original
claim fails for string payloads beginning with `{` (see the counterexample)
and for non-ASCII printable topics (the Latin-1 store / UTF-8 read
mismatch, claim C10). -/
theorem C1_decode_encode_roundtrip :
    (∀ (ts : Int) (i t p : PyStr),
      wfStr i = true →
      (∀ c ∈ t, 32 ≤ c ∧ c < 127) →
      (∀ c ∈ p, 32 ≤ c ∧ c < 127) →
      p.head? ≠ some 123 →
      decodeEncode ⟨ts, .str i, t, p⟩ = .ok ⟨ts, .str i, t, p⟩) ∧
    (∀ (ts : Int) (i t : PyStr) (pf : JMembers),
      wfStr i = true →
      (∀ c ∈ t, 32 ≤ c ∧ c < 127) →
      wfMembers pf = true →
      decodeEncode ⟨ts, .str i, t, dumpsVal (.obj pf)⟩ =
        .ok ⟨ts, .str i, t, dumpsVal (.obj pf)⟩ ∧
      loads (dumpsVal (.obj pf)) = some (.obj pf)) := by
  constructor
  · intro ts i t p hi ht hp hb
    have haT : ∀ c ∈ t, c < 128 := fun c hc => by have := ht c hc; omega
    have haP : ∀ c ∈ p, c < 128 := fun c hc => by have := hp c hc; omega
    rw [decodeEncode, encodeWire_ascii ts (.str i) t p haT haP]
    have htry := parseMessageTry_wire (.str i) ts t p hi haT haP
    rw [if_neg hb, mkFields_eq_fields4] at htry
    exact parse_message_of_try_str _ _ _ _ _ htry
      (fun c hc => by have := haT c hc; omega)
      (fun c hc => by have := haP c hc; omega)
  · intro ts i t pf hi ht hwpf
    have haT : ∀ c ∈ t, c < 128 := fun c hc => by have := ht c hc; omega
    have haP : ∀ c ∈ dumpsVal (.obj pf), c < 128 := dumpsVal_ascii (.obj pf)
    have hloads : loads (dumpsVal (.obj pf)) = some (.obj pf) :=
      loads_dumps (.obj pf) hwpf
    refine ⟨?_, hloads⟩
    rw [decodeEncode, encodeWire_ascii ts (.str i) t _ haT haP]
    have htry := parseMessageTry_wire (.str i) ts t (dumpsVal (.obj pf)) hi
      haT haP
    rw [if_pos (dumpsVal_obj_head_any pf), hloads] at htry
    rw [show (match some (JValue.obj pf) with
      | none => (Except.error PyExc.jsonDecodeError : Except PyExc JValue)
      | some pj => Except.ok (JValue.obj
          (jSet (pstr "payload") pj (mkFields (.str i) ts t
            (dumpsVal (.obj pf)))))) =
      Except.ok (JValue.obj (jSet (pstr "payload") (JValue.obj pf)
        (mkFields (.str i) ts t (dumpsVal (.obj pf))))) from rfl] at htry
    rw [jSet_mkFields_payload] at htry
    rw [show (JMembers.cons (pstr "_id") (JValue.str i)
      (.cons (pstr "timestamp") (.num ts)
        (.cons (pstr "topic") (.str t)
          (.cons (pstr "payload") (.obj pf) .nil)))) =
      fields4 (.str i) ts t (.obj pf) from rfl] at htry
    exact parse_message_of_try_obj _ _ _ _ _ htry
      (fun c hc => by have := haT c hc; omega)

/-- Witness for C1: a concrete exchange — topic `"t1"`, payload `"hello"`,
id `"a"`, timestamp 5 — round-trips through the codec. -/
theorem C1_decode_encode_roundtrip_witness :
    decodeEncode ⟨5, .str (pstr "a"), pstr "t1", pstr "hello"⟩ =
      .ok ⟨5, .str (pstr "a"), pstr "t1", pstr "hello"⟩ :=
  C1_decode_encode_roundtrip.1 5 (pstr "a") (pstr "t1") (pstr "hello")
    (by decide) (by decide) (by decide) (by decide)

/-- C1 counterexample: the claim as stated is false.  The payload `"{"` is a
printable, JSON-serializable string, stored unchanged by the payload setter,
yet `decode(encode(m))` raises ValueError instead of returning a Message —
`parse_message` re-parses any stored payload beginning with `{` and `"{"` is
not valid JSON. -/
theorem C1_counterexample :
    CMITMessage.payloadSet ⟨0, .str (pstr "i"), pstr "t", []⟩ (.str [123]) =
      .ok ⟨0, .str (pstr "i"), pstr "t", [123]⟩ ∧
    decodeEncode ⟨0, .str (pstr "i"), pstr "t", [123]⟩ =
      .error .valueError := by
  constructor
  · rfl
  · rfl

/-- C2 (code-bug evidence): a decoded JSON object that is missing only the
`payload` key makes `parse_message` raise `KeyError` — not the `ValueError`
that the function's own missing-key check (whose key list includes
`payload`) would raise — because line 72 subscripts `decoded_msg["payload"]`
before that check runs.  For the other three keys the check does run: a
message missing only `_id` raises `ValueError` as documented. -/
theorem C2_missing_payload_key :
    parse_message (b64encode
      (pstr "\x7b\"_id\": \"a\", \"topic\": \"t\", \"timestamp\": 1\x7d")) =
      .error .keyError ∧
    PyExc.isValueError .keyError = false ∧
    parse_message (b64encode
      (pstr "\x7b\"topic\": \"t\", \"timestamp\": 1, \"payload\": \"x\"\x7d")) =
      .error .valueError := by
  refine ⟨rfl, rfl, rfl⟩

/-- Errors from the topic property are always UnicodeDecodeError. -/
theorem topicProp_error {m : CMITMessage} {e : PyExc}
    (h : CMITMessage.topicProp m = .error e) : e = .unicodeDecodeError := by
  rw [CMITMessage.topicProp] at h
  cases hu : utf8Decode m.topicB with
  | none =>
    rw [hu] at h
    simpa using h.symm
  | some s =>
    rw [hu] at h
    exact absurd h (by simp)

/-- C10: string topics and payloads are stored as Latin-1 bytes (identity on
code points below 256), while the `topic`/`payload` properties decode the
stored bytes as UTF-8; whenever the stored bytes are not valid UTF-8 the
property — and through it `as_string` — raises UnicodeDecodeError, and the
payload property succeeds exactly when the stored bytes are valid UTF-8. -/
theorem C10_latin1_store_utf8_read :
    (∀ (m : CMITMessage) (s : PyStr), (∀ c ∈ s, c < 256) →
      CMITMessage.payloadSet m (.str s) = .ok { m with payloadB := s }) ∧
    (∀ (t : PyStr) (idV : JValue) (now : Int), (∀ c ∈ t, c < 256) →
      CMITMessage.init (.str t) idV now = .ok ⟨now, idV, t, []⟩) ∧
    (∀ m : CMITMessage, utf8Decode m.topicB = none →
      CMITMessage.topicProp m = .error .unicodeDecodeError ∧
      CMITMessage.as_string m = .error .unicodeDecodeError) ∧
    (∀ m : CMITMessage, utf8Decode m.payloadB = none →
      CMITMessage.payloadProp m = .error .unicodeDecodeError ∧
      CMITMessage.as_string m = .error .unicodeDecodeError) ∧
    (∀ m : CMITMessage,
      (CMITMessage.payloadProp m).isOk = (utf8Decode m.payloadB).isSome) := by
  refine ⟨?_, ?_, ?_, ?_, ?_⟩
  · intro m s hs
    rw [CMITMessage.payloadSet]
    rw [latin1Encode, if_pos]
    rw [List.all_eq_true]
    intro c hc
    simpa using hs c hc
  · intro t idV now ht
    rw [CMITMessage.init]
    rw [latin1Encode, if_pos]
    rw [List.all_eq_true]
    intro c hc
    simpa using ht c hc
  · intro m h
    have h1 : CMITMessage.topicProp m = .error .unicodeDecodeError := by
      rw [CMITMessage.topicProp, h]
    refine ⟨h1, ?_⟩
    rw [CMITMessage.as_string, h1]
  · intro m h
    have h1 : CMITMessage.payloadProp m = .error .unicodeDecodeError := by
      rw [CMITMessage.payloadProp, h]
    refine ⟨h1, ?_⟩
    rw [CMITMessage.as_string]
    cases ht : CMITMessage.topicProp m with
    | error e =>
      have := topicProp_error ht
      subst this
      rfl
    | ok t =>
      rw [h1]
  · intro m
    rw [CMITMessage.payloadProp]
    cases hu : utf8Decode m.payloadB with
    | none => rfl
    | some s => rfl

/-- Witness for C10: the payload set from the printable Latin-1 string `"é"`
(code point 233) is stored as the single byte 233, which is not valid UTF-8,
so the payload property and `as_string` raise UnicodeDecodeError on the
resulting message. -/
theorem C10_latin1_store_utf8_read_witness :
    CMITMessage.payloadSet ⟨0, .str (pstr "i"), pstr "t", []⟩ (.str [233]) =
      .ok ⟨0, .str (pstr "i"), pstr "t", [233]⟩ ∧
    CMITMessage.payloadProp ⟨0, .str (pstr "i"), pstr "t", [233]⟩ =
      .error .unicodeDecodeError ∧
    CMITMessage.as_string ⟨0, .str (pstr "i"), pstr "t", [233]⟩ =
      .error .unicodeDecodeError := by
  refine ⟨?_, ?_, ?_⟩
  · exact C10_latin1_store_utf8_read.1 ⟨0, .str (pstr "i"), pstr "t", []⟩
      [233] (by decide)
  · exact (C10_latin1_store_utf8_read.2.2.2.1
      ⟨0, .str (pstr "i"), pstr "t", [233]⟩ (by decide)).1
  · exact (C10_latin1_store_utf8_read.2.2.2.1
      ⟨0, .str (pstr "i"), pstr "t", [233]⟩ (by decide)).2

/-! ## Shared stream and string helpers for the client and server models

A socket read stream is modelled as the list of raw lines the peer sent
(each including its terminator).  `readline lines n` models
`fp.readline(n)`: it returns at most `n` bytes of the next line; an
over-long line is split, the remainder staying in the stream. -/

def readline (lines : List PyBytes) (n : Nat) : PyBytes × List PyBytes :=
  match lines with
  | [] => ([], [])
  | l :: rest =>
    if l.length ≤ n then (l, rest) else (l.take n, l.drop n :: rest)

/-- Fuel-driven model of Python `str.split(None, maxsplit)`: split on runs
of whitespace, ignoring leading whitespace; once `maxsplit` splits are used
the remainder (with leading whitespace skipped) is the final element. -/
def pySplitWsF : Nat → PyStr → Nat → List PyStr
  | 0, _, _ => []
  | f + 1, s, maxsplit =>
    let s2 := s.dropWhile (isPySpace ·)
    if s2 = [] then []
    else if maxsplit = 0 then [s2]
    else (s2.takeWhile (fun c => !isPySpace c)) ::
         pySplitWsF f (s2.dropWhile (fun c => !isPySpace c)) (maxsplit - 1)

def pySplitWs (s : PyStr) (maxsplit : Nat) : List PyStr :=
  pySplitWsF (s.length + 1) s maxsplit

/-- Model of `str.rstrip('\r\n')`: drop trailing CR and LF characters. -/
def pyRstripCRLF (s : PyStr) : PyStr :=
  (s.reverse.dropWhile (fun c => c = 13 || c = 10)).reverse

/-- Numeric value of a string of ASCII digits. -/
def digitsVal (l : PyStr) : Nat := l.foldl (fun a c => a * 10 + (c - 48)) 0

/-- Model of `str.isdigit` (ASCII fragment): non-empty and all digits. -/
def pyIsDigit (s : PyStr) : Bool := !s.isEmpty && s.all isAsciiDigit

/-- Model of `int(str)` (ASCII fragment): strip whitespace, optional sign,
decimal digits. -/
def pyInt (s : PyStr) : Option Int :=
  let t := pyStrip s
  match t with
  | [] => none
  | c :: r =>
    if c = 45 then
      if pyIsDigit r then some (-(digitsVal r : Int)) else none
    else if c = 43 then
      if pyIsDigit r then some (digitsVal r : Int) else none
    else if pyIsDigit t then some (digitsVal t : Int)
    else none

/-- Model of `str.split('.')`: split on every dot, keeping empty pieces. -/
def splitOnDot : PyStr → List PyStr
  | [] => [[]]
  | c :: rest =>
    if c = 46 then [] :: splitOnDot rest
    else
      match splitOnDot rest with
      | h :: t => (c :: h) :: t
      | [] => [[c]]

/-! ## Client model (`cmit/client.py`) -/

/-- The enforced maximum line length `_MAXLINE`. -/
def MAXLINE : Nat := 65536

/-- Model of the module-level `cmit.client.parse_message`: read the blank
separator line and the message line from the response stream, enforcing the
line-length limit (LineTooLong) before any other check, and wrapping any
`ValueError` from the codec into the plain "Invalid message" ValueError. -/
def clientParseMessage (lines : List PyBytes) : Except PyExc CMITMessage :=
  let p1 := readline lines (MAXLINE + 1)
  if p1.1.length > MAXLINE then .error .lineTooLong
  else if p1.1 ≠ [13, 10] then .error .valueError
  else
    let p2 := readline p1.2 (MAXLINE + 1)
    if p2.1.length > MAXLINE then .error .lineTooLong
    else if p2.1 = [] then .error .remoteDisconnected
    else
      match parse_message p2.1 with
      | .ok m => .ok m
      | .error e => if e.isValueError then .error .valueError else .error e

/-- Model of `CMITResponse._read_status`: read the status line, UTF-8
decode it (`str(..., "utf-8")`), enforce the length limit on the decoded
text, split into version/status/reason with the source's unpack fallbacks,
and validate the `CMIT/` marker and the 100..999 status range (any
violation is a BadStatusLine). -/
def readStatus (lines : List PyBytes) :
    Except PyExc ((PyStr × Int × PyStr) × List PyBytes) :=
  let p := readline lines (MAXLINE + 1)
  match utf8Decode p.1 with
  | none => .error .unicodeDecodeError
  | some line =>
    if line.length > MAXLINE then .error .lineTooLong
    else if line = [] then .error .remoteDisconnected
    else
      let parts := pySplitWs line 2
      let vsr :=
        match parts with
        | [v, st, re] => (v, st, re)
        | [v, st] => (v, st, ([] : PyStr))
        | _ => (([] : PyStr), ([] : PyStr), ([] : PyStr))
      if ¬ (pstr "CMIT/").isPrefixOf vsr.1 then .error .badStatusLine
      else
        match pyInt vsr.2.1 with
        | none => .error .badStatusLine
        | some status =>
          if ¬ (100 ≤ status ∧ status ≤ 999) then .error .badStatusLine
          else .ok ((vsr.1, status, vsr.2.2), p.2)

/-- Model of `CMITResponse.begin` (fuel-driven status loop): repeatedly read
status lines while the status is 100, then require the version to be
exactly `"CMIT/1.0"` (anything else raises UnknownProtocol), then read the
message via the codec.  Returns the final status, the stripped reason and
the message. -/
def responseBeginF : Nat → List PyBytes →
    Except PyExc (Int × PyStr × CMITMessage)
  | 0, _ => .error .remoteDisconnected
  | f + 1, lines =>
    match readStatus lines with
    | .error e => .error e
    | .ok (vsr, rest) =>
      if vsr.2.1 = 100 then responseBeginF f rest
      else if vsr.1 = pstr "CMIT/1.0" then
        match clientParseMessage rest with
        | .ok m => .ok (vsr.2.1, pyStrip vsr.2.2, m)
        | .error e => .error e
      else .error .unknownProtocol

def responseBegin (lines : List PyBytes) :
    Except PyExc (Int × PyStr × CMITMessage) :=
  responseBeginF (lines.length + 1) lines

/-- The client connection states `_CS_IDLE`, `_CS_REQ_STARTED`,
`_CS_REQ_SENT`. -/
inductive CState where
  | idle
  | reqStarted
  | reqSent
deriving DecidableEq, Repr

/-- Observable state of a `CMITConnection`: the state-machine slot, the
cached response's closed flag (`self.__response` / `isclosed()`), and
whether a socket is attached. -/
structure ConnState where
  state : CState
  response : Option Bool
  sockOpen : Bool
deriving DecidableEq, Repr

/-- The connection after `__init__` (no socket yet, state Idle). -/
def initialConn : ConnState := ⟨.idle, none, false⟩

/-- Model of `CMITConnection._send_request` followed by `end_request`
(which `_send_request` invokes).  Returns the successor state and the byte
strings written to the socket: the upper-cased control line, the blank
line, the encoded message, and `end_request`'s terminating CRLF.
Mirrors the source order: clear a closed cached response, check/advance the
state (CannotSendRequest unless Idle), build the message (topic resolution
can raise), set the payload (strings and callables via the setter, dicts
`json.dumps`-ed to a string first, bytes silently ignored), write the three
lines (`self.sock.sendall` — AttributeError if never connected), then
`end_request` advances to Request-Sent and sends the final CRLF. -/
def send_request (st : ConnState) (command : PyStr) (topic : TopicArg)
    (payload : PayloadArg) (msg_id : JValue) (now : Int) :
    Except PyExc (ConnState × List PyBytes) :=
  let st := if st.response = some true then { st with response := none } else st
  if st.state = .idle then
    let st := { st with state := .reqStarted }
    match CMITMessage.init topic msg_id now with
    | .error e => .error e
    | .ok message =>
      match
        (match payload with
         | .str s => CMITMessage.payloadSet message (.str s)
         | .producer f => CMITMessage.payloadSet message (.producer f)
         | .jval j => CMITMessage.payloadSet message (.str (dumpsVal j))
         | .bytes _ => .ok message) with
      | .error e => .error e
      | .ok message =>
        match latin1Encode (pyUpper command ++ pstr " CMIT/1.0\r\n") with
        | .error e => .error e
        | .ok reqLine =>
          if ¬ st.sockOpen then .error .attributeError
          else
            match encodeWire message with
            | .error e => .error e
            | .ok wire =>
              -- end_request: state must be Request-Started, then send CRLF
              .ok ({ st with state := .reqSent },
                   [reqLine, [13, 10], wire, [13, 10]])
  else .error .cannotSendRequest

/-- Model of `CMITConnection.getresponse`: clear a closed cached response,
fail with ResponseNotReady unless the state is Request-Sent with no
outstanding response, then build and begin a response on the socket; since
`will_close` is always true, success closes the connection (state Idle,
socket closed). -/
def getresponse (st : ConnState) (lines : List PyBytes) :
    Except PyExc (ConnState × Int × PyStr × CMITMessage) :=
  let st := if st.response = some true then { st with response := none } else st
  if st.state ≠ .reqSent ∨ st.response.isSome then .error .responseNotReady
  else if ¬ st.sockOpen then .error .attributeError
  else
    match responseBegin lines with
    | .error e => .error e
    | .ok (status, reason, m) =>
      .ok (⟨.idle, none, false⟩, status, reason, m)

/-! ## Server request handler model (`cmit/server.py`) -/

/-- The version-validation block of `BaseCMITRequestHandler.parse_request`
(lines 188-212): require the `CMIT/` marker, split the remainder at every
dot into exactly two parts, require both to satisfy `isdigit` and be at
most three characters, and convert to an integer pair.  `none` models the
`except (ValueError, IndexError)` path.  (Since the version starts with
`CMIT/`, `split('/', 1)[1]` is the text after the first five characters.) -/
def checkVersionSyntax (version : PyStr) : Option (Nat × Nat) :=
  if ¬ (pstr "CMIT/").isPrefixOf version then none
  else
    let base := version.drop 5
    match splitOnDot base with
    | [a, b] =>
      if ¬ (pyIsDigit a ∧ pyIsDigit b) then none
      else if 3 < a.length ∨ 3 < b.length then none
      else some (digitsVal a, digitsVal b)
    | _ => none

/-- Outcome of `BaseCMITRequestHandler.parse_request` on one raw control
line: `accepted` models `return True`; `noRequestLine` the
`len(words) == 0` silent `return False`; `oneWord` the fall-through
(implicit `return None`, nothing sent) when the line has exactly one word;
`badRequest` a Bad-Request error response followed by `return False`;
`raisedNameError` the `send_error(..., "Bad request syntax (%r)" %
requestline)` path, whose argument evaluates the undefined name
`requestline` and so raises NameError before anything is sent. -/
inductive ParseReqOut where
  | accepted (command : PyStr) (version : PyStr)
  | noRequestLine
  | oneWord
  | badRequest (msg : PyStr)
  | raisedNameError
deriving DecidableEq, Repr

/-- Model of `BaseCMITRequestHandler.parse_request`. -/
def parse_request (raw_request_line : PyBytes) : ParseReqOut :=
  let request_line := pyRstripCRLF (latin1Decode raw_request_line)
  let words := pySplitWs request_line 2
  match words with
  | [] => .noRequestLine
  | [_] => .oneWord
  | w1 :: w2 :: rest =>
    let version := (w2 :: rest).getLastD w2
    match checkVersionSyntax version with
    | none => .badRequest (pstr "Bad protocol version")
    | some vn =>
      if 2 < vn.1 ∨ (vn.1 = 2 ∧ 0 ≤ vn.2) then
        .badRequest (pstr "Invalid CMIT version")
      else if ¬ (1 ≤ words.length ∧ words.length ≤ 2) then .raisedNameError
      else .accepted w1 version

/-- Whether the server-side version validation accepts a control-line
version: `checkVersionSyntax` succeeds and the resulting pair is below
`(2, 0)` in Python tuple order. -/
def serverAcceptsVersion (version : PyStr) : Bool :=
  match checkVersionSyntax version with
  | none => false
  | some vn => !(2 < vn.1 ∨ (vn.1 = 2 ∧ 0 ≤ vn.2) : Bool)

/-- Outcome of `BaseCMITRequestHandler.handle_one_request` on one request:
which response (if any) was sent, or which exception escaped the handler
loop (only `socket.timeout` is caught there). -/
inductive HandleOut where
  | sentBadRequestTooLong
  | peerClosed
  | parseFailedSilent
  | parseFailedBadRequest (msg : PyStr)
  | raised (e : PyExc)
  | notImplemented (command : PyStr)
  | bodyBadRequest (msg : PyStr)
  | dispatched (command : PyStr) (msg : CMITMessage)
deriving Repr

/-- Model of `handle_one_request` (with `parse_body` inlined at its call
site, as in the source): read the control line (over-long lines are
answered with a Bad-Request **response**, not a LineTooLong failure; an
empty read means the peer closed), run `parse_request`, resolve the
`do_<command>` handler by exact, case-sensitive name, then parse the body:
the spacer and message lines are read **without** any length check, a bad
spacer or empty message line is answered with Bad-Request, and a codec
failure is answered with Bad-Request only for `json.JSONDecodeError` —
which `CMITMessage.parse_message` never lets escape (it re-raises plain
`ValueError`), so any malformed body in fact raises out of the handler. -/
def handle_one_request (lines : List PyBytes) (commands : List PyStr) :
    HandleOut :=
  let p1 := readline lines (MAXLINE + 1)
  if p1.1.length > MAXLINE then .sentBadRequestTooLong
  else if p1.1 = [] then .peerClosed
  else
    match parse_request p1.1 with
    | .noRequestLine => .parseFailedSilent
    | .oneWord => .parseFailedSilent
    | .badRequest m => .parseFailedBadRequest m
    | .raisedNameError => .raised .nameError
    | .accepted command _ =>
      if command ∉ commands then .notImplemented command
      else
        let p2 := readline p1.2 (MAXLINE + 1)
        if latin1Decode p2.1 ≠ [13, 10] then
          .bodyBadRequest (pstr "Invalid request body")
        else
          let p3 := readline p2.2 (MAXLINE + 1)
          if latin1Decode p3.1 = [13, 10] then
            .bodyBadRequest (pstr "Invalid request body")
          else
            match parse_message p3.1 with
            | .ok m => .dispatched command m
            | .error e =>
              if e = .jsonDecodeError then
                .bodyBadRequest (pstr "Malformed request body")
              else .raised e

/-- C3 (code-bug evidence): a present-but-malformed control line does not
always produce a Bad-Request response.  A three-word control line whose
last word is a valid version reaches `send_error(..., "Bad request syntax
(%r)" % requestline)`, whose argument evaluates the undefined name
`requestline` (the variable is `request_line`), so `parse_request` raises
NameError and the exception escapes `handle_one_request` (which catches
only `socket.timeout`) — the handler loop crashes and no response is sent.
A one-word control line is rejected silently (implicit `return None`, no
response) rather than with Bad-Request; a well-formed two-word line is
accepted and a bad version does get the Bad-Request response. -/
theorem C3_malformed_control_line :
    handle_one_request [pstr "PING EXTRA CMIT/1.0\r\n"] [pstr "PING"] =
      .raised .nameError ∧
    parse_request (pstr "PING EXTRA CMIT/1.0\r\n") = .raisedNameError ∧
    parse_request (pstr "PING\r\n") = .oneWord ∧
    parse_request (pstr "PING CMIT/9.9\r\n") =
      .badRequest (pstr "Invalid CMIT version") := by
  refine ⟨rfl, rfl, rfl, rfl⟩

theorem getresponse_idle (st : ConnState) (lines : List PyBytes)
    (h : st.state = .idle) :
    getresponse st lines = .error .responseNotReady := by
  rw [getresponse]
  have hstate : (if st.response = some true then
      { st with response := none } else st).state = st.state := by
    split <;> rfl
  rw [if_pos]
  left
  rw [hstate, h]
  decide

theorem send_request_not_idle (st : ConnState) (c : PyStr) (t : TopicArg)
    (p : PayloadArg) (i : JValue) (now : Int) (h : st.state ≠ .idle) :
    send_request st c t p i now = .error .cannotSendRequest := by
  rw [send_request]
  have hstate : (if st.response = some true then
      { st with response := none } else st).state = st.state := by
    split <;> rfl
  rw [if_neg]
  rw [hstate]
  exact h

theorem send_request_ok_shape (st : ConnState) (c : PyStr) (t : TopicArg)
    (p : PayloadArg) (i : JValue) (now : Int) (st2 : ConnState)
    (out : List PyBytes)
    (h : send_request st c t p i now = .ok (st2, out)) :
    st2.state = .reqSent := by
  rw [send_request] at h
  repeat' split at h
  all_goals try simp only [reduceCtorEq] at h
  all_goals try dsimp only at h
  all_goals repeat' split at h
  all_goals try simp only [reduceCtorEq] at h
  all_goals simp only [Except.ok.injEq, Prod.mk.injEq] at h
  all_goals rw [← h.1]

/-- C7: the client connection state machine admits at most one exchange in
flight.  `getresponse()` on an Idle connection (in particular before any
`request()`) fails with ResponseNotReady, and after a successful
`request()` (state Request-Sent) a second `request()` fails with
CannotSendRequest — both subclasses of `ImproperConnectionState`, the
spec's StateError. -/
theorem C7_state_machine :
    (∀ (st : ConnState) (lines : List PyBytes), st.state = .idle →
      getresponse st lines = .error .responseNotReady) ∧
    (∀ (st : ConnState) (c : PyStr) (t : TopicArg) (p : PayloadArg)
       (i : JValue) (now : Int) (st2 : ConnState) (out : List PyBytes),
      send_request st c t p i now = .ok (st2, out) →
      st2.state = .reqSent ∧
      (∀ (c2 : PyStr) (t2 : TopicArg) (p2 : PayloadArg) (i2 : JValue)
         (now2 : Int),
        send_request st2 c2 t2 p2 i2 now2 = .error .cannotSendRequest)) ∧
    PyExc.isStateError .responseNotReady = true ∧
    PyExc.isStateError .cannotSendRequest = true := by
  refine ⟨getresponse_idle, ?_, rfl, rfl⟩
  intro st c t p i now st2 out h
  have h2 := send_request_ok_shape st c t p i now st2 out h
  refine ⟨h2, ?_⟩
  intro c2 t2 p2 i2 now2
  apply send_request_not_idle
  rw [h2]
  decide

/-- Witness for C7: a concrete connected-idle connection accepts one PING
request (moving to Request-Sent) and then refuses a second request; and
`getresponse` on the initial connection state fails with
ResponseNotReady. -/
theorem C7_state_machine_witness :
    getresponse initialConn [] = .error .responseNotReady ∧
    (∃ st2 out,
      send_request ⟨.idle, none, true⟩ (pstr "ping") (.str (pstr "t"))
        (.str (pstr "x")) (.str (pstr "1")) 0 = .ok (st2, out) ∧
      send_request st2 (pstr "PING") (.str (pstr "t"))
        (.str (pstr "x")) (.str (pstr "2")) 0 =
        .error .cannotSendRequest) := by
  constructor
  · exact C7_state_machine.1 initialConn [] rfl
  · refine ⟨⟨.reqSent, none, true⟩, _, rfl, ?_⟩
    exact (C7_state_machine.2.1 ⟨.idle, none, true⟩ (pstr "ping")
      (.str (pstr "t")) (.str (pstr "x")) (.str (pstr "1")) 0
      ⟨.reqSent, none, true⟩ _ rfl).2 (pstr "PING") (.str (pstr "t"))
      (.str (pstr "x")) (.str (pstr "2")) 0

/-! ## C8: the 65536-byte line limit -/

theorem MAXLINE_eq : MAXLINE = 65536 := rfl

theorem readline_short {l : PyBytes} (rest : List PyBytes) {n : Nat}
    (h : l.length ≤ n) : readline (l :: rest) n = (l, rest) := by
  rw [readline, if_pos h]

theorem readline_long {l : PyBytes} (rest : List PyBytes) {n : Nat}
    (h : n < l.length) :
    readline (l :: rest) n = (l.take n, l.drop n :: rest) := by
  rw [readline, if_neg (by omega)]

/-- Reading with limit `MAXLINE + 1` from a stream whose first line exceeds
`MAXLINE` always yields a first chunk longer than `MAXLINE` (either the
whole line or the `MAXLINE + 1`-byte truncation). -/
theorem readline_len_long {l : PyBytes} (rest : List PyBytes)
    (h : MAXLINE < l.length) :
    MAXLINE < (readline (l :: rest) (MAXLINE + 1)).1.length := by
  rcases Nat.lt_or_ge (MAXLINE + 1) l.length with hc | hc
  · rw [readline_long rest hc]
    dsimp only
    rw [List.length_take]
    omega
  · rw [readline_short rest hc]
    exact h

/-- Client codec: an over-long separation line raises LineTooLong. -/
theorem clientParseMessage_sep_long (l : PyBytes) (rest : List PyBytes)
    (h : MAXLINE < l.length) :
    clientParseMessage (l :: rest) = .error .lineTooLong := by
  rw [clientParseMessage]
  rw [if_pos (readline_len_long rest h)]

/-- Client codec: an over-long message line raises LineTooLong. -/
theorem clientParseMessage_msg_long (l : PyBytes) (rest : List PyBytes)
    (h : MAXLINE < l.length) :
    clientParseMessage ([13, 10] :: l :: rest) = .error .lineTooLong := by
  rw [clientParseMessage, readline_short (l :: rest) (by decide)]
  dsimp only
  rw [if_neg (by decide), if_neg (by simp)]
  try dsimp only
  rw [if_pos (readline_len_long rest h)]

/-- Server: an over-long control line is answered with a Bad-Request
response (no LineTooLong is raised anywhere on the server paths). -/
theorem handle_ctrl_long (l : PyBytes) (rest : List PyBytes)
    (commands : List PyStr) (h : MAXLINE < l.length) :
    handle_one_request (l :: rest) commands = .sentBadRequestTooLong := by
  rw [handle_one_request]
  rw [if_pos (readline_len_long rest h)]

/-- Server: an over-long body spacer line is read with no length check,
truncated, and answered with Bad-Request "Invalid request body" — not
LineTooLong. -/
theorem handle_spacer_long (l : PyBytes) (rest : List PyBytes)
    (h : MAXLINE < l.length) :
    handle_one_request (pstr "PING CMIT/1.0\r\n" :: l :: rest)
        [pstr "PING"] = .bodyBadRequest (pstr "Invalid request body") := by
  rw [handle_one_request, readline_short (l :: rest) (by decide)]
  dsimp only
  rw [if_neg (by decide), if_neg (by decide)]
  rw [show parse_request (pstr "PING CMIT/1.0\r\n") =
    .accepted (pstr "PING") (pstr "CMIT/1.0") from rfl]
  dsimp only
  rw [if_neg (by decide)]
  try dsimp only
  have hne : latin1Decode (readline (l :: rest) (MAXLINE + 1)).1 ≠
      [13, 10] := by
    intro he
    rw [latin1Decode] at he
    have hlong := readline_len_long rest h
    rw [he] at hlong
    exact absurd hlong (by decide)
  rw [if_pos hne]

/-- A complete, valid wire blob: base64 of a four-key JSON message. -/
def c8json : PyStr :=
  pstr "\x7b\"_id\": \"a\", \"topic\": \"t\", \"timestamp\": 1, \"payload\": \"x\"\x7d"

def c8wire : PyBytes := b64encode c8json

def c8msg : CMITMessage := ⟨1, .str (pstr "a"), pstr "t", pstr "x"⟩

/-- Padding of spaces pushing a body message line over the limit. -/
def c8filler : PyBytes := List.replicate (MAXLINE + 1) 32

def c8long : PyBytes := c8wire ++ c8filler

theorem c8wire_len : c8wire.length = 80 := by decide

theorem parse_message_c8wire : parse_message c8wire = .ok c8msg := by rfl

/-- `b64decode` ignores a suffix containing no alphabet characters. -/
theorem b64decode_append_junk (x y : PyBytes)
    (hy : y.filter (fun c => isB64Char c || c = 61) = []) :
    b64decode (x ++ y) = b64decode x := by
  rw [b64decode, b64decode, List.filter_append, hy, List.append_nil]

theorem filter_b64_replicate32 (n : Nat) :
    (List.replicate n 32 : PyBytes).filter
      (fun c => isB64Char c || c = 61) = [] := by
  induction n with
  | zero => rfl
  | succ k ih => rw [List.replicate_succ, List.filter_cons_of_neg (by decide), ih]

/-- `parse_message` depends on its input only through `b64decode`. -/
theorem parse_message_congr (a b : PyBytes)
    (h : b64decode a = b64decode b) : parse_message a = parse_message b := by
  have ht : parseMessageTry a = parseMessageTry b := by
    rw [parseMessageTry, parseMessageTry, h]
  rw [parse_message, parse_message, ht]

theorem c8long_take :
    c8long.take (MAXLINE + 1) =
      c8wire ++ List.replicate (MAXLINE + 1 - 80) 32 := by
  rw [c8long, List.take_append_eq_append_take,
    List.take_of_length_le (by decide), c8wire_len, c8filler,
    List.take_replicate, Nat.min_eq_left (by decide)]

theorem parse_message_c8trunc :
    parse_message (c8long.take (MAXLINE + 1)) = .ok c8msg := by
  rw [c8long_take,
    parse_message_congr _ c8wire
      (b64decode_append_junk c8wire _ (filter_b64_replicate32 _)),
    parse_message_c8wire]

/-- Server body reading with an over-long message line: the line is read
with limit `MAXLINE + 1` and no length check, so it is truncated and fed to
the codec; if the truncation still parses, a message is dispatched. -/
theorem handle_msg_long (l : PyBytes) (rest : List PyBytes)
    (m : CMITMessage) (hlen : MAXLINE + 1 < l.length)
    (hp : parse_message (l.take (MAXLINE + 1)) = .ok m) :
    handle_one_request (pstr "PING CMIT/1.0\r\n" :: [13, 10] :: l :: rest)
        [pstr "PING"] = .dispatched (pstr "PING") m := by
  rw [handle_one_request, readline_short ([13, 10] :: l :: rest) (by decide)]
  dsimp only
  rw [if_neg (by decide), if_neg (by decide)]
  rw [show parse_request (pstr "PING CMIT/1.0\r\n") =
    .accepted (pstr "PING") (pstr "CMIT/1.0") from rfl]
  dsimp only
  rw [if_neg (by decide)]
  try dsimp only
  rw [readline_short (l :: rest) (by decide)]
  dsimp only
  rw [if_neg (by simp [latin1Decode])]
  rw [readline_long rest hlen]
  dsimp only
  have hne : ¬ (latin1Decode (l.take (MAXLINE + 1)) = [13, 10]) := by
    intro he
    rw [latin1Decode] at he
    have hlt := congrArg List.length he
    rw [List.length_take, MAXLINE_eq] at hlt
    rw [MAXLINE_eq] at hlen
    simp at hlt
    omega
  rw [if_neg hne, hp]

/-- C8 counterexample: the claim as stated is false on the server side.
A request whose body message line is longer than 65536 bytes (a valid wire
blob padded with spaces past the limit) is NOT answered with LineTooLong:
`parse_body` reads the line with `readline(_MAXLINE + 1)` but never checks
its length, so the line is silently truncated to 65537 bytes, the
truncation still decodes, and the handler dispatches a message built from
the truncated line. -/
theorem C8_counterexample :
    MAXLINE < c8long.length ∧
    handle_one_request [pstr "PING CMIT/1.0\r\n", [13, 10], c8long]
        [pstr "PING"] = .dispatched (pstr "PING") c8msg := by
  have hlen : MAXLINE + 1 < c8long.length := by
    rw [c8long, List.length_append, c8filler, List.length_replicate,
      c8wire_len]
    decide
  exact ⟨by omega, handle_msg_long c8long [] c8msg hlen parse_message_c8trunc⟩

/-- C8 (amended): on the client's response-reading path
(`cmit.client.parse_message`), a separation or message line longer than
65536 bytes fails with LineTooLong and no message is produced.  On the
server's request-reading path there is no LineTooLong at all: an over-long
control line is answered with a Bad-Request response, and the body lines
read by `parse_body` have no length check — an over-long spacer line is
truncated and answered with Bad-Request "Invalid request body" (see
`C8_counterexample` for an over-long message line that still dispatches a
message). -/
theorem C8_line_limits :
    (∀ (l : PyBytes) (rest : List PyBytes), MAXLINE < l.length →
      clientParseMessage (l :: rest) = .error .lineTooLong) ∧
    (∀ (l : PyBytes) (rest : List PyBytes), MAXLINE < l.length →
      clientParseMessage ([13, 10] :: l :: rest) = .error .lineTooLong) ∧
    (∀ (l : PyBytes) (rest : List PyBytes) (commands : List PyStr),
      MAXLINE < l.length →
      handle_one_request (l :: rest) commands = .sentBadRequestTooLong) ∧
    (∀ (l : PyBytes) (rest : List PyBytes), MAXLINE < l.length →
      handle_one_request (pstr "PING CMIT/1.0\r\n" :: l :: rest)
        [pstr "PING"] = .bodyBadRequest (pstr "Invalid request body")) :=
  ⟨clientParseMessage_sep_long, clientParseMessage_msg_long,
   handle_ctrl_long, handle_spacer_long⟩

/-- Witness for C8: a concrete 65537-byte line trips the client's
LineTooLong and the server's Bad-Request response. -/
theorem C8_line_limits_witness :
    MAXLINE < (List.replicate (MAXLINE + 1) 65 : PyBytes).length ∧
    clientParseMessage [List.replicate (MAXLINE + 1) 65] =
      .error .lineTooLong ∧
    handle_one_request [List.replicate (MAXLINE + 1) 65] [] =
      .sentBadRequestTooLong := by
  have hl : MAXLINE < (List.replicate (MAXLINE + 1) 65 : PyBytes).length := by
    rw [List.length_replicate]
    omega
  exact ⟨hl, C8_line_limits.1 _ [] hl, C8_line_limits.2.2.1 _ [] [] hl⟩

/-! ## C4: protocol-version validation -/

theorem splitOnDot_ne_nil : ∀ s : PyStr, splitOnDot s ≠ [] := by
  intro s
  induction s with
  | nil => rw [splitOnDot]; exact (by simp)
  | cons c r ih =>
    rw [splitOnDot]
    by_cases hc : c = 46
    · rw [if_pos hc]; simp
    · rw [if_neg hc]
      cases hs : splitOnDot r with
      | nil => exact absurd hs ih
      | cons h t => simp

/-- Splitting a dot-free chunk followed by a dot: the chunk is the first
piece. -/
theorem splitOnDot_append (a b : PyStr) (ha : ∀ c ∈ a, c ≠ 46) :
    splitOnDot (a ++ 46 :: b) = a :: splitOnDot b := by
  induction a with
  | nil =>
    rw [List.nil_append, splitOnDot, if_pos rfl]
  | cons c r ih =>
    rw [List.cons_append, splitOnDot,
      if_neg (ha c (List.mem_cons_self c r))]
    rw [ih (fun x hx => ha x (List.mem_cons_of_mem c hx))]

/-- A dot-free string splits to itself. -/
theorem splitOnDot_nodot (b : PyStr) (hb : ∀ c ∈ b, c ≠ 46) :
    splitOnDot b = [b] := by
  induction b with
  | nil => rfl
  | cons c r ih =>
    rw [splitOnDot, if_neg (hb c (List.mem_cons_self c r))]
    rw [ih (fun x hx => hb x (List.mem_cons_of_mem c hx))]

theorem digits_no_dot {s : PyStr} (h : pyIsDigit s = true) :
    ∀ c ∈ s, c ≠ 46 := by
  intro c hc
  rw [pyIsDigit, Bool.and_eq_true, List.all_eq_true] at h
  have := h.2 c hc
  rw [isAsciiDigit, Bool.and_eq_true] at this
  simp only [decide_eq_true_eq] at this
  omega

theorem checkVersionSyntax_digits (a b : PyStr)
    (hda : pyIsDigit a = true) (hdb : pyIsDigit b = true)
    (hla : a.length ≤ 3) (hlb : b.length ≤ 3) :
    checkVersionSyntax (pstr "CMIT/" ++ a ++ 46 :: b) =
      some (digitsVal a, digitsVal b) := by
  rw [checkVersionSyntax]
  rw [List.append_assoc]
  have hpre : (pstr "CMIT/").isPrefixOf
      (pstr "CMIT/" ++ (a ++ 46 :: b)) = true := by
    rw [List.isPrefixOf_iff_prefix]
    exact List.prefix_append _ _
  rw [if_neg (by simp [hpre])]
  rw [show (5 : Nat) = (pstr "CMIT/").length from rfl, List.drop_left]
  dsimp only
  rw [splitOnDot_append a b (digits_no_dot hda), splitOnDot_nodot b
    (digits_no_dot hdb)]
  dsimp only
  rw [if_neg (by simp [hda, hdb]), if_neg (by omega)]

theorem serverAcceptsVersion_digits (a b : PyStr)
    (hda : pyIsDigit a = true) (hdb : pyIsDigit b = true)
    (hla : a.length ≤ 3) (hlb : b.length ≤ 3) :
    (serverAcceptsVersion (pstr "CMIT/" ++ a ++ 46 :: b) = true ↔
      digitsVal a ≤ 1) := by
  rw [serverAcceptsVersion, checkVersionSyntax_digits a b hda hdb hla hlb]
  dsimp only
  simp only [Bool.not_eq_eq_eq_not, Bool.not_true, decide_eq_false_iff_not,
    not_or, not_lt, not_and]
  constructor
  · intro h
    omega
  · intro h
    refine ⟨by omega, fun h2 => absurd h2 (by omega)⟩

/-- The client's `begin` rejects any version other than `"CMIT/1.0"` once a
non-100 status arrives. -/
theorem responseBeginF_unknown (f : Nat) (lines rest : List PyBytes)
    (v re : PyStr) (st : Int)
    (h : readStatus lines = .ok ((v, st, re), rest)) (h100 : st ≠ 100)
    (hv : v ≠ pstr "CMIT/1.0") :
    responseBeginF (f + 1) lines = .error .unknownProtocol := by
  rw [responseBeginF, h]
  dsimp only
  rw [if_neg h100, if_neg hv]

/-- C4 counterexample: the claim as stated is false — the two paths do not
agree on `CMIT/1.1`.  The server's numeric check accepts `CMIT/1.1`
(`(1, 1) < (2, 0)`), but the client's `begin` compares the version against
the tuple `("CMIT/1.0",)` and raises UnknownProtocol for `CMIT/1.1` even on
a complete, well-formed response. -/
theorem C4_counterexample :
    serverAcceptsVersion (pstr "CMIT/1.1") = true ∧
    responseBegin [pstr "CMIT/1.1 200 OK\r\n", [13, 10], c8wire] =
      .error .unknownProtocol := ⟨rfl, rfl⟩

/-- C4 (amended): the server-side validation accepts exactly the versions
`CMIT/<major>.<minor>` with both parts numeric, at most 3 digits each and
`major ≤ 1` — in particular `CMIT/1.0` and `CMIT/1.1` are accepted,
`CMIT/2.0` and `CMIT/1` rejected.  The client-side path is stricter than
the spec says: once a non-100 status arrives, any version other than the
exact string `CMIT/1.0` (including the server-accepted `CMIT/1.1`, see
`C4_counterexample`) fails the exchange with UnknownProtocol, while a
`CMIT/1.0` response is processed. -/
theorem C4_version_validation :
    serverAcceptsVersion (pstr "CMIT/1.0") = true ∧
    serverAcceptsVersion (pstr "CMIT/1.1") = true ∧
    serverAcceptsVersion (pstr "CMIT/2.0") = false ∧
    serverAcceptsVersion (pstr "CMIT/1") = false ∧
    (∀ (a b : PyStr), pyIsDigit a = true → pyIsDigit b = true →
      a.length ≤ 3 → b.length ≤ 3 →
      (serverAcceptsVersion (pstr "CMIT/" ++ a ++ 46 :: b) = true ↔
        digitsVal a ≤ 1)) ∧
    (∀ (f : Nat) (lines rest : List PyBytes) (v re : PyStr) (st : Int),
      readStatus lines = .ok ((v, st, re), rest) → st ≠ 100 →
      v ≠ pstr "CMIT/1.0" →
      responseBeginF (f + 1) lines = .error .unknownProtocol) ∧
    responseBegin [pstr "CMIT/1.0 200 OK\r\n", [13, 10], c8wire] =
      .ok (200, pstr "OK", c8msg) :=
  ⟨rfl, rfl, rfl, rfl, serverAcceptsVersion_digits, responseBeginF_unknown,
   rfl⟩

/-- Witness for C4: the characterization applied to `CMIT/1.5` (major 1,
accepted by the server) and the client lemma applied to a concrete
`CMIT/1.5` response (rejected with UnknownProtocol). -/
theorem C4_version_validation_witness :
    (serverAcceptsVersion (pstr "CMIT/" ++ pstr "1" ++ 46 :: pstr "5") =
      true ↔ digitsVal (pstr "1") ≤ 1) ∧
    responseBeginF 1 [pstr "CMIT/1.5 200 OK\r\n"] =
      .error .unknownProtocol := by
  constructor
  · exact C4_version_validation.2.2.2.2.1 (pstr "1") (pstr "5")
      (by decide) (by decide) (by decide) (by decide)
  · exact C4_version_validation.2.2.2.2.2.1 0 [pstr "CMIT/1.5 200 OK\r\n"]
      [] (pstr "CMIT/1.5") (pstr "OK\r\n") 200 rfl (by decide) (by decide)

/-! ## C9: command verbs are upper-cased on the wire -/

theorem latin1Encode_ok {s bs : PyStr} (h : latin1Encode s = .ok bs) :
    bs = s := by
  rw [latin1Encode] at h
  split at h
  · simp only [Except.ok.injEq] at h
    exact h.symm
  · exact absurd h (by simp)

/-- Model of `to_native_str` on `str` input (the identity: decoding applies
only to `bytes`). -/
def to_native_str (s : PyStr) : PyStr := s

/-- Model of `PreparedRequest.prepare_command`. -/
def prepare_command (command : PyStr) : PyStr := to_native_str command

/-- The command string `Session.request` passes to the prepared request:
`command.upper()` run through `prepare_command`. -/
def sessionRequestCommand (command : PyStr) : PyStr :=
  prepare_command (pyUpper command)

/-- A successful `_send_request` writes the control line from the
upper-cased command. -/
theorem send_request_ok_out (st : ConnState) (c : PyStr) (t : TopicArg)
    (p : PayloadArg) (i : JValue) (now : Int) (st2 : ConnState)
    (out : List PyBytes)
    (h : send_request st c t p i now = .ok (st2, out)) :
    out.head? = some (pyUpper c ++ pstr " CMIT/1.0\r\n") := by
  rw [send_request] at h
  cases hL : latin1Encode (pyUpper c ++ pstr " CMIT/1.0\r\n") with
  | error e =>
    rw [hL] at h
    repeat' split at h
    all_goals try simp only [reduceCtorEq] at h
    all_goals try dsimp only at h
    all_goals repeat' split at h
    all_goals simp_all only [reduceCtorEq]
  | ok reqLine =>
    have hreq := latin1Encode_ok hL
    subst hreq
    rw [hL] at h
    repeat' split at h
    all_goals try simp only [reduceCtorEq] at h
    all_goals try dsimp only at h
    all_goals repeat' split at h
    all_goals try simp only [reduceCtorEq] at h
    all_goals simp only [Except.ok.injEq, Prod.mk.injEq] at h
    all_goals simp_all only [Except.ok.injEq, List.head?_cons,
      Option.some.injEq]
    all_goals rw [← h.2]
    all_goals rfl

theorem pyUpper_idem (c : PyStr) : pyUpper (pyUpper c) = pyUpper c := by
  rw [pyUpper, pyUpper, List.map_map]
  apply List.map_congr_left
  intro x hx
  dsimp only [Function.comp]
  by_cases h1 : (97 ≤ x && x ≤ 122) = true
  · rw [if_pos h1]
    have h2 : ¬ ((97 ≤ x - 32 && x - 32 ≤ 122) = true) := by
      simp only [Bool.and_eq_true, decide_eq_true_eq] at h1 ⊢
      omega
    rw [if_neg h2]
  · rw [if_neg h1, if_neg h1]

/-- C9: every request the client writes carries the upper-cased command
verb — a successful `_send_request` puts `command.upper()` in the control
line, and `Session.request` upper-cases the verb before preparing the
request (`prepare_command`/`to_native_str` keep a `str` unchanged); since
`upper()` is idempotent the two layers compose to the same wire verb. -/
theorem C9_command_uppercased :
    (∀ (st : ConnState) (c : PyStr) (t : TopicArg) (p : PayloadArg)
       (i : JValue) (now : Int) (st2 : ConnState) (out : List PyBytes),
      send_request st c t p i now = .ok (st2, out) →
      out.head? = some (pyUpper c ++ pstr " CMIT/1.0\r\n")) ∧
    (∀ c : PyStr, sessionRequestCommand c = pyUpper c) ∧
    (∀ c : PyStr, pyUpper (pyUpper c) = pyUpper c) :=
  ⟨send_request_ok_out, fun _ => rfl, pyUpper_idem⟩

/-- Witness for C9: the lower-case command `"ping"` goes out as
`"PING CMIT/1.0\r\n"`. -/
theorem C9_command_uppercased_witness :
    sessionRequestCommand (pstr "ping") = pyUpper (pstr "ping") ∧
    (∃ st2 out,
      send_request ⟨.idle, none, true⟩ (pstr "ping") (.str (pstr "t"))
        (.str (pstr "x")) (.str (pstr "1")) 0 = .ok (st2, out) ∧
      out.head? = some (pyUpper (pstr "ping") ++ pstr " CMIT/1.0\r\n")) := by
  refine ⟨C9_command_uppercased.2.1 (pstr "ping"), ⟨.reqSent, none, true⟩,
    _, rfl, ?_⟩
  exact C9_command_uppercased.1 ⟨.idle, none, true⟩ (pstr "ping")
    (.str (pstr "t")) (.str (pstr "x")) (.str (pstr "1")) 0
    ⟨.reqSent, none, true⟩ _ rfl

/-! ## C5: the adapter connection pool (`cmit/requests/adapters.py`,
`cmit/requests/_internal_utils.py`) -/

def isAlpha (c : Nat) : Bool := (65 ≤ c && c ≤ 90) || (97 ≤ c && c ≤ 122)

/-- The character class `[a-zA-Z0-9+-]` of `_SCHEME_RE`. -/
def isSchemeReChar (c : Nat) : Bool :=
  isAlpha c || isAsciiDigit c || c = 43 || c = 45

/-- The character class `[a-zA-Z0-9+.-]` of the scheme group of `_URI_RE`. -/
def isUriSchemeChar (c : Nat) : Bool :=
  isAlpha c || isAsciiDigit c || c = 43 || c = 46 || c = 45

/-- Whether `_SCHEME_RE` (`^(?:[a-zA-Z][a-zA-Z0-9+-]*:|/)`) matches: the
string starts with `/`, or with an ASCII letter whose maximal run of scheme
characters is followed by `:` (the class excludes `:`, so backtracking
cannot shorten the run). -/
def schemeReMatches (s : PyStr) : Bool :=
  match s with
  | [] => false
  | c :: rest =>
    c = 47 ||
      (isAlpha c &&
        decide ((rest.dropWhile (isSchemeReChar ·)).head? = some 58))

/-- The optional scheme group of `_URI_RE`: an ASCII letter, a maximal run
of `[a-zA-Z0-9+.-]`, then a literal `:`; returns the scheme and the rest. -/
def uriSchemeSplit (s : PyStr) : Option (PyStr × PyStr) :=
  match s with
  | [] => none
  | c :: rest =>
    if isAlpha c then
      match rest.dropWhile (isUriSchemeChar ·) with
      | 58 :: tail => some (c :: rest.takeWhile (isUriSchemeChar ·), tail)
      | _ => none
    else none

/-- The `SocketPath` named tuple. -/
structure SocketPath where
  scheme : Option PyStr
  path : Option PyStr
  file_type : Option PyStr
deriving DecidableEq, Repr

/-- `SocketPath.__new__`: lower-case the scheme, prepend `/` to a non-empty
path that lacks one. -/
def SocketPath.new (scheme path file_type : Option PyStr) : SocketPath :=
  { scheme := scheme.map pyLower,
    path :=
      match path with
      | some p =>
        if p ≠ [] ∧ p.head? ≠ some 47 then some (47 :: p) else some p
      | none => none,
    file_type := file_type }

/-- The `socket_path` property: `self.path + self.file_type`, a TypeError
when either is `None`. -/
def SocketPath.socket_path (sp : SocketPath) : Except PyExc PyStr :=
  match sp.path, sp.file_type with
  | some p, some f => .ok (p ++ f)
  | _, _ => .error .typeError

/-- Characters excluded from the authority group `[^\\?#.]*` of
`_URI_RE`. -/
def isAuthorityStop (c : Nat) : Bool := c = 92 || c = 63 || c = 35 || c = 46

/-- Model of `parse_socket_path`: empty input gives the empty tuple;
otherwise `//` is prepended unless `_SCHEME_RE` matches; `_URI_RE` fails to
match (AttributeError, re-raised as ValueError) exactly when the string
contains `?` or `#` (both final groups exclude them); the scheme group is
as in `uriSchemeSplit`; the authority group participates when the rest
starts with `//` and takes characters up to the first `\`, `?`, `#` or
`.`; the last group is the remainder; an empty `file_type` defaults to
`".sock"`. -/
def parse_socket_path (socket_path : PyStr) : Except PyExc SocketPath :=
  if socket_path = [] then .ok (SocketPath.new none none none)
  else
    let s2 := if schemeReMatches socket_path then socket_path
              else 47 :: 47 :: socket_path
    if s2.any (fun c => c = 63 || c = 35) then .error .valueError
    else
      let sr := match uriSchemeSplit s2 with
                | some (sc, r) => (some (pyLower sc), r)
                | none => (none, s2)
      let pf := match sr.2 with
                | 47 :: 47 :: r2 =>
                  (some (r2.takeWhile (fun c => !isAuthorityStop c)),
                   r2.dropWhile (fun c => !isAuthorityStop c))
                | r => (none, r)
      let ft := if pf.2 = [] then pstr ".sock" else pf.2
      .ok (SocketPath.new sr.1 pf.1 (some ft))

/-- A `CMITConnection` as the adapter pool sees it: its socket target plus
an identity tag distinguishing distinct `CMITConnection(...)` objects. -/
structure Conn where
  socket : PyStr
  tag : Nat
deriving DecidableEq, Repr

/-- Model of `CMITAdapter.get_connection` as a transition on the
`self.connection` slot: returns the connection handed to the caller, the
new value of `self.connection`, and the list of connections closed.  `tag`
identifies the `CMITConnection` freshly constructed in this call. -/
def get_connection (pool : Option Conn) (fp : PyStr) (tag : Nat) :
    Except PyExc (Conn × Option Conn × List Conn) :=
  match parse_socket_path fp with
  | .error e => .error e
  | .ok parsed =>
    match SocketPath.socket_path parsed with
    | .error e => .error e
    | .ok sp =>
      match pool with
      | some c =>
        if c.socket ≠ sp then .ok (⟨sp, tag⟩, none, [c])
        else .ok (c, some c, [])
      | none => .ok (⟨sp, tag⟩, some ⟨sp, tag⟩, [])

/-- C5 counterexample: the claim as stated is false.  When the resolved
target changes, `get_connection` closes the stale connection and sets
`self.connection = None`, but the freshly built replacement is assigned
only to the *local* `connection` variable — the pool entry is NOT replaced
by the fresh connection; it is left empty. -/
theorem C5_counterexample :
    get_connection (some ⟨pstr "/a.sock", 0⟩) (pstr "cmit://b") 1 =
      .ok (⟨pstr "/b.sock", 1⟩, none, [⟨pstr "/a.sock", 0⟩]) ∧
    (none : Option Conn) ≠ some (⟨pstr "/b.sock", 1⟩ : Conn) := by
  exact ⟨rfl, by simp⟩

/-- C5 (amended): the adapter holds at most one pooled connection, keyed by
the resolved socket target.  If the resolved target equals the pooled
connection's target, the pooled connection is reused (pool unchanged,
nothing closed).  If the target differs, the stale connection is closed
first and a fresh connection for the new target is returned — but the pool
entry is cleared to None rather than replaced, so the fresh connection is
never pooled.  With an empty pool the fresh connection is stored. -/
theorem C5_connection_pool :
    (∀ (c : Conn) (fp : PyStr) (tag : Nat) (sp : SocketPath)
       (target : PyStr),
      parse_socket_path fp = .ok sp →
      SocketPath.socket_path sp = .ok target →
      c.socket = target →
      get_connection (some c) fp tag = .ok (c, some c, [])) ∧
    (∀ (c : Conn) (fp : PyStr) (tag : Nat) (sp : SocketPath)
       (target : PyStr),
      parse_socket_path fp = .ok sp →
      SocketPath.socket_path sp = .ok target →
      c.socket ≠ target →
      get_connection (some c) fp tag = .ok (⟨target, tag⟩, none, [c])) ∧
    (∀ (fp : PyStr) (tag : Nat) (sp : SocketPath) (target : PyStr),
      parse_socket_path fp = .ok sp →
      SocketPath.socket_path sp = .ok target →
      get_connection none fp tag =
        .ok (⟨target, tag⟩, some ⟨target, tag⟩, [])) := by
  refine ⟨?_, ?_, ?_⟩
  · intro c fp tag sp target h1 h2 h3
    rw [get_connection, h1]
    dsimp only
    rw [h2]
    dsimp only
    rw [if_neg (by simp [h3])]
  · intro c fp tag sp target h1 h2 h3
    rw [get_connection, h1]
    dsimp only
    rw [h2]
    dsimp only
    rw [if_pos h3]
  · intro fp tag sp target h1 h2
    rw [get_connection, h1]
    dsimp only
    rw [h2]

/-- Witness for C5: a pooled connection for `/b.sock` is reused when the
locator `cmit://b` resolves to the same target, and a first call on an
empty pool stores the fresh connection. -/
theorem C5_connection_pool_witness :
    get_connection (some ⟨pstr "/b.sock", 0⟩) (pstr "cmit://b") 1 =
      .ok (⟨pstr "/b.sock", 0⟩, some ⟨pstr "/b.sock", 0⟩, []) ∧
    get_connection none (pstr "cmit://b") 2 =
      .ok (⟨pstr "/b.sock", 2⟩, some ⟨pstr "/b.sock", 2⟩, []) := by
  constructor
  · exact C5_connection_pool.1 ⟨pstr "/b.sock", 0⟩ (pstr "cmit://b") 1
      ⟨some (pstr "cmit"), some (pstr "/b"), some (pstr ".sock")⟩
      (pstr "/b.sock") rfl rfl rfl
  · exact C5_connection_pool.2.2 (pstr "cmit://b") 2
      ⟨some (pstr "cmit"), some (pstr "/b"), some (pstr ".sock")⟩
      (pstr "/b.sock") rfl rfl

/-! ## C6: the session mount table (`cmit/requests/sessions.py`) -/

/-- `OrderedDict` item assignment: update an existing key in place, append
a new key at the end. -/
def dictSet (t : List (PyStr × Nat)) (k : PyStr) (v : Nat) :
    List (PyStr × Nat) :=
  if t.any (fun kv => kv.1 = k) then
    t.map (fun kv => if kv.1 = k then (k, v) else kv)
  else t ++ [(k, v)]

/-- Model of `Session.mount`: assign the adapter, then pop-and-reinsert
(at the end, in table order) every key strictly shorter than the new
prefix — a stable partition with the `≥`-length entries first. -/
def mount (t : List (PyStr × Nat)) (p : PyStr) (a : Nat) :
    List (PyStr × Nat) :=
  let t2 := dictSet t p a
  t2.filter (fun kv => !decide (kv.1.length < p.length)) ++
    t2.filter (fun kv => decide (kv.1.length < p.length))

/-- The match test of `Session.get_adapter`:
`uri.lower().startswith(prefix.lower())`. -/
def adapterMatches (uri k : PyStr) : Bool :=
  (pyLower k).isPrefixOf (pyLower uri)

/-- The table entry `get_adapter` stops at: the first whose prefix matches
the locator case-insensitively. -/
def getAdapterEntry (t : List (PyStr × Nat)) (uri : PyStr) :
    Option (PyStr × Nat) :=
  t.find? (fun kv => adapterMatches uri kv.1)

/-- Model of `Session.get_adapter`: the adapter of the first matching
entry; `none` models the InvalidSchema raise. -/
def get_adapter (t : List (PyStr × Nat)) (uri : PyStr) : Option Nat :=
  (getAdapterEntry t uri).map (fun kv => kv.2)

/-- The ordering invariant: prefix lengths are non-increasing along the
table, so shorter prefixes sort after longer ones. -/
def sortedDesc (t : List (PyStr × Nat)) : Prop :=
  t.Pairwise (fun x y => y.1.length ≤ x.1.length)

theorem sortedDesc_dictSet_update (t : List (PyStr × Nat)) (p : PyStr)
    (a : Nat) (h : sortedDesc t) :
    sortedDesc (t.map (fun kv => if kv.1 = p then (p, a) else kv)) := by
  rw [sortedDesc, List.pairwise_map]
  refine h.imp ?_
  intro x y hxy
  by_cases hx : x.1 = p <;> by_cases hy : y.1 = p
  · rw [if_pos hx, if_pos hy]
  · rw [if_pos hx, if_neg hy]
    dsimp only
    rw [← hx]
    exact hxy
  · rw [if_neg hx, if_pos hy]
    dsimp only
    rw [← hy]
    exact hxy
  · rw [if_neg hx, if_neg hy]
    exact hxy

theorem length_eq_of_mem_filter_ge {t : List (PyStr × Nat)} {n : Nat}
    {x : PyStr × Nat}
    (hx : x ∈ t.filter (fun kv => !decide (kv.1.length < n))) :
    n ≤ x.1.length := by
  have := (List.mem_filter.mp hx).2
  simp only [Bool.not_eq_eq_eq_not, Bool.not_true, decide_eq_false_iff_not,
    not_lt] at this
  exact this

theorem length_lt_of_mem_filter_lt {t : List (PyStr × Nat)} {n : Nat}
    {x : PyStr × Nat}
    (hx : x ∈ t.filter (fun kv => decide (kv.1.length < n))) :
    x.1.length < n := by
  have := (List.mem_filter.mp hx).2
  simpa using this

/-- The stable partition of a sorted table is sorted. -/
theorem sortedDesc_partition (t2 : List (PyStr × Nat)) (n : Nat)
    (h : sortedDesc t2) :
    sortedDesc (t2.filter (fun kv => !decide (kv.1.length < n)) ++
      t2.filter (fun kv => decide (kv.1.length < n))) := by
  rw [sortedDesc, List.pairwise_append]
  refine ⟨h.filter _, h.filter _, ?_⟩
  intro x hx y hy
  have h1 := length_eq_of_mem_filter_ge hx
  have h2 := length_lt_of_mem_filter_lt hy
  omega

/-- `mount` preserves the ordering invariant: updating a key in place keeps
lengths unchanged, and a new key is appended then the stable partition
moves every strictly shorter prefix behind it. -/
theorem sortedDesc_mount (t : List (PyStr × Nat)) (p : PyStr) (a : Nat)
    (h : sortedDesc t) : sortedDesc (mount t p a) := by
  rw [mount]
  try dsimp only
  rw [dictSet]
  by_cases hc : t.any (fun kv => kv.1 = p) = true
  · rw [if_pos hc]
    exact sortedDesc_partition _ _ (sortedDesc_dictSet_update t p a h)
  · rw [if_neg hc]
    rw [List.filter_append, List.filter_append]
    rw [show List.filter (fun kv => !decide (kv.1.length < p.length))
      [(p, a)] = [(p, a)] from by simp]
    rw [show List.filter (fun kv => decide (kv.1.length < p.length))
      [(p, a)] = [] from by simp]
    rw [List.append_nil]
    rw [sortedDesc, List.pairwise_append]
    refine ⟨?_, h.filter _, ?_⟩
    · rw [List.pairwise_append]
      refine ⟨h.filter _, List.pairwise_singleton _ _, ?_⟩
      intro x hx y hy
      have h1 := length_eq_of_mem_filter_ge hx
      have h2 : y = (p, a) := by simpa using hy
      rw [h2]
      exact h1
    · intro x hx y hy
      have h2 := length_lt_of_mem_filter_lt hy
      rcases List.mem_append.mp hx with hx1 | hx2
      · have h1 := length_eq_of_mem_filter_ge hx1
        omega
      · have h1 : x = (p, a) := by simpa using hx2
        rw [h1]
        dsimp only
        omega

/-- Any sequence of `mount` calls starting from the empty table yields a
sorted table. -/
theorem sortedDesc_foldl (ms : List (PyStr × Nat)) :
    ∀ t, sortedDesc t →
      sortedDesc (ms.foldl (fun t pa => mount t pa.1 pa.2) t) := by
  induction ms with
  | nil => intro t h; exact h
  | cons m rest ih =>
    intro t h
    exact ih _ (sortedDesc_mount _ _ _ h)

/-- On a sorted table, the first matching entry has maximal prefix length
among all matching entries. -/
theorem getAdapterEntry_longest : ∀ (t : List (PyStr × Nat)) (uri : PyStr),
    sortedDesc t → ∀ (k : PyStr) (v : Nat),
    getAdapterEntry t uri = some (k, v) →
    ∀ (k2 : PyStr) (v2 : Nat), (k2, v2) ∈ t →
      adapterMatches uri k2 = true → k2.length ≤ k.length := by
  intro t
  induction t with
  | nil =>
    intro uri h k v hf
    simp [getAdapterEntry] at hf
  | cons hd tl ih =>
    intro uri h k v hf k2 v2 hm hmatch
    rw [sortedDesc, List.pairwise_cons] at h
    rw [getAdapterEntry, List.find?_cons] at hf
    by_cases hp : adapterMatches uri hd.1 = true
    · rw [hp] at hf
      have hhd := Option.some.inj hf
      rcases List.mem_cons.mp hm with he | htl
      · have hk2 : k2 = hd.1 := congrArg Prod.fst he
        rw [hk2, hhd]
      · have hle := h.1 (k2, v2) htl
        rw [hhd] at hle
        exact hle
    · rw [Bool.not_eq_true] at hp
      rw [hp] at hf
      rcases List.mem_cons.mp hm with he | htl
      · have hk2 : k2 = hd.1 := congrArg Prod.fst he
        rw [hk2, hp] at hmatch
        exact absurd hmatch (by simp)
      · exact ih uri h.2 k v hf k2 v2 htl hmatch

/-- C6: the mount-table invariant.  Every table built by a sequence of
`mount` calls is ordered with shorter prefixes after longer ones; on such a
table the first match returned by `get_adapter` has maximal prefix length
among all matching entries; and concretely mounting `cmit://` then
`cmit://special/` routes a locator matching both to the `cmit://special/`
adapter (which `get_adapter` resolves first even though `cmit://` also
matches). -/
theorem C6_mount_table :
    (∀ (ms : List (PyStr × Nat)),
      sortedDesc (ms.foldl (fun t pa => mount t pa.1 pa.2) [])) ∧
    (∀ (t : List (PyStr × Nat)) (uri : PyStr), sortedDesc t →
      ∀ (k : PyStr) (v : Nat), getAdapterEntry t uri = some (k, v) →
      ∀ (k2 : PyStr) (v2 : Nat), (k2, v2) ∈ t →
        adapterMatches uri k2 = true → k2.length ≤ k.length) ∧
    get_adapter
        (mount (mount [] (pstr "cmit://") 1) (pstr "cmit://special/") 2)
        (pstr "cmit://special/topic") = some 2 ∧
    adapterMatches (pstr "cmit://special/topic") (pstr "cmit://") = true := by
  refine ⟨fun ms => sortedDesc_foldl ms [] (List.Pairwise.nil),
    getAdapterEntry_longest, by decide, by decide⟩

/-- Witness for C6: the two-mount table is sorted, and the first-match
lemma applied to it shows the shorter matching prefix `cmit://` cannot beat
the resolved `cmit://special/`. -/
theorem C6_mount_table_witness :
    sortedDesc [(pstr "cmit://special/", 2), (pstr "cmit://", 1)] ∧
    (pstr "cmit://").length ≤ (pstr "cmit://special/").length := by
  constructor
  · exact C6_mount_table.1 [(pstr "cmit://", 1), (pstr "cmit://special/", 2)]
  · exact C6_mount_table.2.1
      [(pstr "cmit://special/", 2), (pstr "cmit://", 1)]
      (pstr "cmit://special/topic")
      (C6_mount_table.1 [(pstr "cmit://", 1), (pstr "cmit://special/", 2)])
      (pstr "cmit://special/") 2 rfl (pstr "cmit://") 1 (by simp)
      (by decide)
